import Mathlib

/-
  Verification of the MicrochipUpdate program (the NGRR dog-registry /
  Found.org microchip-update generator) against its specification.

  The C++ sources (CSVRow.cpp, CSVFile.cpp, Chip.cpp, Dog.cpp,
  MicrochipUpdate.cpp) are shallowly embedded below:

  * C++ std::string values are modelled as lists of characters (`Str`);
    `std::string::push_back` becomes appending a character, `substr(pos, len)`
    becomes `(drop pos).take len` (which clamps exactly like `substr`).
  * the regular expressions used by the program are small and deterministic
    (their character classes are disjoint from the literal delimiters that
    follow them), so each one is embedded as a first-order matching function
    that mirrors the regex structure; greedy/backtracking behaviour is noted
    where it matters (the optional leading "1" of the phone pattern).
  * the diagnostics singleton (`BADDOGS`/`MSGS` of Messages.hpp) is modelled
    by returning lists of emitted messages; dynamic message text is
    abbreviated to a fixed tag per call site, paired with the number of the
    dog the message was attributed to where the source attributes one.
  * the heap of `CDog` objects owned by a `CDogs` collection is modelled as
    an arena (a list of records); the two `unordered_map`s of the collection
    map keys to arena indices, which models C++ pointer sharing between the
    two indexes.
-/

set_option linter.unusedVariables false

/-- C++ std::string, modelled as a list of characters. -/
abbrev Str := List Char

namespace CCSVRow

/-- Delimiter used between fields in CSV files (CSVRow.hpp). -/
def COMMA : Char := ','

/-- Character used to quote literal strings (CSVRow.hpp); this is the
double-quote character, written via its code point. -/
def QUOTE : Char := Char.ofNat 34

/-- A blank character in the sense of `find_first_not_of(" \t")`:
a space or a horizontal tab (code point 9). -/
def isBlankChar (c : Char) : Bool := c == ' ' || c == Char.ofNat 9

/-- Index of the first non-blank character (`find_first_not_of(" \t")`). -/
def findFirstNotBlank : Str → Option Nat
  | [] => none
  | c :: t => if isBlankChar c then (findFirstNotBlank t).map (· + 1) else some 0

/-- Index of the last non-blank character (`find_last_not_of(" \t")`). -/
def findLastNotBlank (l : Str) : Option Nat :=
  (findFirstNotBlank l.reverse).map (fun k => l.length - 1 - k)

/-- CCSVRow::TrimColumn.  Note the faithful embedding of the source's
`src.substr(start, end+1)`: the second argument of `substr` is a LENGTH, so
the call keeps `end+1` characters starting at `start` (clamped to the end of
the string), not the range `[start, end]`. -/
def TrimColumn (src : Str) : Str :=
  match findFirstNotBlank src, findLastNotBlank src with
  | some start, some stop => (src.drop start).take (stop + 1)
  | _, _ => []

/-- CCSVRow::RemoveEquals: unwrap the spreadsheet ="..." protect-as-text form. -/
def RemoveEquals (src : Str) : Str :=
  match src with
  | '=' :: dst =>
    if dst.length < 2 then dst
    else if dst.head? = some QUOTE ∧ dst.getLast? = some QUOTE then
      (dst.drop 1).take (dst.length - 2)
    else dst
  | _ => src

/-- CCSVRow::NeedsQuotes: the field contains a quote or a comma. -/
def NeedsQuotes (str : Str) : Bool := str.contains QUOTE || str.contains COMMA

/-- The cleanup applied to every extracted field in CCSVRow::Parse:
`TrimColumn(RemoveEquals(TrimColumn(column)))`. -/
def CleanColumn (s : Str) : Str := TrimColumn (RemoveEquals (TrimColumn s))

/-- CCSVRow::ParseField.  The two booleans are `fInQuotes` and `fQuoteLast`;
the accumulator is `sResult`; the returned pair is the accumulated field and
the rest of the line starting at the delimiting comma (or empty at
end-of-line), which models the in/out iterator of the source. -/
def ParseFieldAux : Bool → Bool → Str → Str → Str × Str
  | _, _, [], acc => (acc, [])
  | fInQuotes, fQuoteLast, c :: rest, acc =>
    if c = COMMA ∧ fInQuotes = false then (acc, c :: rest)
    else if c = QUOTE then
      if fInQuotes = false then
        ParseFieldAux true false rest (if fQuoteLast then acc ++ [QUOTE] else acc)
      else
        ParseFieldAux false true rest acc
    else ParseFieldAux fInQuotes false rest (acc ++ [c])

theorem ParseFieldAux_rest_length :
    ∀ q ql l acc, (ParseFieldAux q ql l acc).2.length ≤ l.length := by
  intro q ql l
  induction l generalizing q ql with
  | nil => intro acc; simp [ParseFieldAux]
  | cons c rest ih =>
    intro acc
    simp only [ParseFieldAux]
    split
    · simp
    · split
      · split
        · exact le_trans (ih true false _) (Nat.le_succ _)
        · exact le_trans (ih false true _) (Nat.le_succ _)
      · exact le_trans (ih q false _) (Nat.le_succ _)

/-- The loop of CCSVRow::Parse: extract a field, clean it, and continue after
the delimiting comma until the end of the line is reached.  The extra `Nat`
is recursion fuel (each iteration consumes at least one character, so
`l.length + 1` is always enough; see `ParseGo_fuel`). -/
def ParseGo : Nat → Str → List Str
  | 0, _ => []
  | fuel + 1, l =>
    match ParseFieldAux false false l [] with
    | (col, []) => [CleanColumn col]
    | (col, _ :: rest) => CleanColumn col :: ParseGo fuel rest

theorem ParseGo_fuel :
    ∀ f₁ f₂ l, l.length < f₁ → l.length < f₂ → ParseGo f₁ l = ParseGo f₂ l := by
  intro f₁
  induction f₁ with
  | zero => intro f₂ l h₁; omega
  | succ f ih =>
    intro f₂ l h₁ h₂
    match f₂, h₂ with
    | f₂ + 1, h₂ =>
      simp only [ParseGo]
      have hlen := ParseFieldAux_rest_length false false l []
      cases hr : ParseFieldAux false false l [] with
      | mk col rest =>
        cases rest with
        | nil => rfl
        | cons c rest' =>
          rw [hr] at hlen
          simp at hlen
          show CleanColumn col :: ParseGo f rest' = CleanColumn col :: ParseGo f₂ rest'
          rw [ih f₂ rest' (by omega) (by omega)]

/-- CCSVRow::Parse.  A null string yields zero columns (not one empty
column) — that special case is explicit in the source. -/
def Parse (str : Str) : List Str := if str = [] then [] else ParseGo (str.length + 1) str

/-- The quote-doubling loop inside CCSVRow::FormatField. -/
def EscapeQuotes : Str → Str
  | [] => []
  | c :: t => if c = QUOTE then c :: QUOTE :: EscapeQuotes t else c :: EscapeQuotes t

/-- CCSVRow::FormatField: quote (and escape) the field iff it needs it. -/
def FormatField (col : Str) : Str :=
  if NeedsQuotes col then QUOTE :: (EscapeQuotes col ++ [QUOTE]) else col

/-- The tail of the formatting loop of CCSVRow::Format: every field after the
first is preceded by a comma. -/
def FormatRest : List Str → Str
  | [] => []
  | c :: t => (COMMA :: FormatField c) ++ FormatRest t

/-- CCSVRow::Format: join the formatted fields with commas. -/
def Format : List Str → Str
  | [] => []
  | c :: t => FormatField c ++ FormatRest t

/-- CCSVRow::Verify: two rows match iff they have the same columns;
on lists this is plain equality. -/
def Verify (a b : List Str) : Bool := a == b

theorem ParseFieldAux_stop (acc : Str) (rest : Str)
    (h : rest = [] ∨ ∃ t, rest = COMMA :: t) :
    ParseFieldAux false false rest acc = (acc, rest) := by
  rcases h with h | ⟨t, h⟩ <;> subst h <;> rfl

theorem ParseFieldAux_plain (l : Str) (acc rest : Str)
    (h : ∀ c ∈ l, c ≠ COMMA ∧ c ≠ QUOTE) :
    ParseFieldAux false false (l ++ rest) acc = ParseFieldAux false false rest (acc ++ l) := by
  induction l generalizing acc with
  | nil => simp
  | cons c t ih =>
    have hc := h c (by simp)
    have h1 : ¬(c = COMMA ∧ (false : Bool) = false) := by simp [hc.1]
    calc ParseFieldAux false false ((c :: t) ++ rest) acc
        = ParseFieldAux false false (t ++ rest) (acc ++ [c]) := by
          simp only [List.cons_append, ParseFieldAux]
          rw [if_neg (by simp [hc.1] : ¬(c = COMMA ∧ True)), if_neg hc.2]
          rfl
      _ = ParseFieldAux false false rest (acc ++ [c] ++ t) :=
          ih (acc ++ [c]) (fun x hx => h x (List.mem_cons_of_mem _ hx))
      _ = ParseFieldAux false false rest (acc ++ c :: t) := by simp

theorem ParseFieldAux_escape (l : Str) (acc rest : Str) :
    ParseFieldAux true false (EscapeQuotes l ++ rest) acc
      = ParseFieldAux true false rest (acc ++ l) := by
  induction l generalizing acc with
  | nil => simp [EscapeQuotes]
  | cons c t ih =>
    by_cases hq : c = QUOTE
    · subst hq
      calc ParseFieldAux true false (EscapeQuotes (QUOTE :: t) ++ rest) acc
          = ParseFieldAux true false (EscapeQuotes t ++ rest) (acc ++ [QUOTE]) := rfl
        _ = ParseFieldAux true false rest (acc ++ [QUOTE] ++ t) := ih (acc ++ [QUOTE])
        _ = ParseFieldAux true false rest (acc ++ QUOTE :: t) := by simp
    · have h1 : ¬(c = COMMA ∧ (true : Bool) = false) := by simp
      calc ParseFieldAux true false (EscapeQuotes (c :: t) ++ rest) acc
          = ParseFieldAux true false ((c :: EscapeQuotes t) ++ rest) acc := by
            simp only [EscapeQuotes, if_neg hq]
        _ = ParseFieldAux true false (EscapeQuotes t ++ rest) (acc ++ [c]) := by
            simp only [List.cons_append, ParseFieldAux]
            rw [if_neg h1, if_neg hq]
            rfl
        _ = ParseFieldAux true false rest (acc ++ [c] ++ t) := ih (acc ++ [c])
        _ = ParseFieldAux true false rest (acc ++ c :: t) := by simp

theorem ParseFieldAux_close (acc : Str) (rest : Str)
    (h : rest = [] ∨ ∃ t, rest = COMMA :: t) :
    ParseFieldAux true false (QUOTE :: rest) acc = (acc, rest) := by
  rcases h with h | ⟨t, h⟩ <;> subst h <;> rfl

theorem not_NeedsQuotes (f : Str) (h : NeedsQuotes f = false) :
    ∀ c ∈ f, c ≠ COMMA ∧ c ≠ QUOTE := by
  intro c hc
  simp only [NeedsQuotes, Bool.or_eq_false_iff] at h
  obtain ⟨hq, hcm⟩ := h
  simp at hq hcm
  exact ⟨fun he => hcm (he ▸ hc), fun he => hq (he ▸ hc)⟩

theorem ParseField_format (f : Str) (rest : Str)
    (h : rest = [] ∨ ∃ t, rest = COMMA :: t) :
    ParseFieldAux false false (FormatField f ++ rest) [] = (f, rest) := by
  by_cases hq : NeedsQuotes f
  · calc ParseFieldAux false false (FormatField f ++ rest) []
        = ParseFieldAux false false (QUOTE :: (EscapeQuotes f ++ (QUOTE :: rest))) [] := by
          simp [FormatField, if_pos hq]
      _ = ParseFieldAux true false (EscapeQuotes f ++ (QUOTE :: rest)) [] := rfl
      _ = ParseFieldAux true false (QUOTE :: rest) ([] ++ f) := ParseFieldAux_escape f [] _
      _ = (f, rest) := by rw [List.nil_append]; exact ParseFieldAux_close f rest h
  · rw [FormatField, if_neg hq,
      ParseFieldAux_plain f [] rest (not_NeedsQuotes f (by simpa using hq)),
      List.nil_append]
    exact ParseFieldAux_stop f rest h

theorem Format_cons_cons (f g : Str) (rest : List Str) :
    Format (f :: g :: rest) = FormatField f ++ (COMMA :: Format (g :: rest)) := by
  simp [Format, FormatRest]

theorem ParseGo_format (fields : List Str) (hne : fields ≠ []) :
    ∀ fuel, (Format fields).length < fuel →
      ParseGo fuel (Format fields) = fields.map CleanColumn := by
  induction fields with
  | nil => exact absurd rfl hne
  | cons f t ih =>
    intro fuel hf
    match fuel, hf with
    | fuel + 1, hf =>
      cases t with
      | nil =>
        have hfmt : Format [f] = FormatField f ++ [] := by simp [Format, FormatRest]
        simp only [ParseGo, hfmt, ParseField_format f [] (Or.inl rfl)]
        rfl
      | cons g rest =>
        have hfmt := Format_cons_cons f g rest
        simp only [ParseGo, hfmt,
          ParseField_format f (COMMA :: Format (g :: rest)) (Or.inr ⟨_, rfl⟩)]
        have hlt : (Format (g :: rest)).length < fuel := by
          rw [hfmt] at hf
          simp [List.length_append] at hf
          omega
        rw [ih (by simp) fuel hlt]
        simp

/-- parse ∘ format returns the original fields with each passed through the
per-field cleanup (trim, unwrap the ="..." form, trim), whenever the
formatted line is not empty (an empty formatted line parses to zero fields). -/
theorem Parse_Format (fields : List Str) (h : Format fields ≠ []) :
    Parse (Format fields) = fields.map CleanColumn := by
  have hne : fields ≠ [] := by
    intro he
    exact h (by simp [he, Format])
  rw [Parse, if_neg h]
  exact ParseGo_format fields hne _ (Nat.lt_succ_self _)

theorem FormatField_ne_nil (f : Str) (h : f ≠ []) : FormatField f ≠ [] := by
  rw [FormatField]
  split
  · simp
  · exact h

end CCSVRow

namespace CCSVFile

/-
  CCSVFile::Read(istream&, string).  The input stream is modelled as the
  list of lines produced by `getline` (without a trailing empty line, which
  the source's eof check discards rather than turning into a row).  The two
  `MSGS(...)` calls of the source are modelled as a returned message list;
  `MSGS` is the program's non-fatal console-message macro (it is used for
  ordinary progress messages throughout the program, and `Read` continues
  and still adds the row after issuing it — only `ERRS`, used for an
  unopenable file, aborts).
-/

/-- Tag for `MSGS("CCSVFile::Read() header does not match")`. -/
def headerMismatchMsg : Str := ("CCSVFile::Read() header does not match").data

/-- Tag for `MSGS("CCSVFile::Read() wrong number of columns in line " << nLines)`. -/
def wrongColumnsMsg (nLine : Nat) : Str :=
  ("CCSVFile::Read() wrong number of columns in line ").data ++ Nat.toDigits 10 nLine

/-- The per-row column-count check of the read loop: a message is emitted for
a row iff `nCols > 0` and the row's column count differs; the row is added
regardless (messages only — this models the loop's `MSGS` + unconditional
`AddRow`). -/
def colCheck (nCols : Nat) : Nat → List (List Str) → List Str
  | _, [] => []
  | nLine, r :: rs =>
    (if nCols > 0 ∧ r.length ≠ nCols then [wrongColumnsMsg nLine] else [])
      ++ colCheck nCols (nLine + 1) rs

/-- CCSVFile::Read.  With a header, the first line is parsed, verified
against the parsed expected header (message on mismatch), and its column
count becomes `nCols`; every later line becomes a row, with a message when
its count differs.  Without a header, `nCols` stays 0 and no count check
ever fires; every line becomes a row. -/
def Read (lines : List Str) (sHeader : Str) : List (List Str) × List Str :=
  if sHeader = [] then
    (lines.map CCSVRow.Parse, colCheck 0 1 (lines.map CCSVRow.Parse))
  else
    match lines with
    | [] =>
      ([], if CCSVRow.Verify [] (CCSVRow.Parse sHeader) then [] else [headerMismatchMsg])
    | first :: rest =>
      let hdr := CCSVRow.Parse first
      let m0 := if CCSVRow.Verify hdr (CCSVRow.Parse sHeader) then [] else [headerMismatchMsg]
      let rows := rest.map CCSVRow.Parse
      (rows, m0 ++ colCheck hdr.length 2 rows)

theorem colCheck_zero : ∀ start rows, colCheck 0 start rows = [] := by
  intro start rows
  induction rows generalizing start with
  | nil => rfl
  | cons r rs ih => simp [colCheck, ih]

theorem colCheck_mem :
    ∀ rows nCols start i r, rows[i]? = some r → nCols > 0 →
      r.length ≠ nCols → wrongColumnsMsg (start + i) ∈ colCheck nCols start rows := by
  intro rows
  induction rows with
  | nil => intro nCols start i r hr; simp at hr
  | cons x rs ih =>
    intro nCols start i r hr hn hlen
    cases i with
    | zero =>
      simp at hr
      subst hr
      simp [colCheck, if_pos (And.intro hn hlen)]
    | succ j =>
      simp only [List.getElem?_cons_succ] at hr
      have := ih nCols (start + 1) j r hr hn hlen
      simp only [colCheck, List.mem_append]
      right
      have harith : start + 1 + j = start + (j + 1) := by omega
      rwa [harith] at this

end CCSVFile

/-
  Character classes used by the program's regular expressions.
-/

/-- The regex class `\d` (a decimal digit). -/
def isDigitChar (c : Char) : Bool := '0' ≤ c && c ≤ '9'

/-- The regex class `[[:xdigit:]]` (a hexadecimal digit). -/
def isXDigitChar (c : Char) : Bool :=
  isDigitChar c || ('a' ≤ c && c ≤ 'f') || ('A' ≤ c && c ≤ 'F')

/-- Match exactly `k` decimal digits (`\d{k}`), returning the digits and the
rest of the input. -/
def takeDigits : Nat → Str → Option (Str × Str)
  | 0, l => some ([], l)
  | _ + 1, [] => none
  | k + 1, c :: l =>
    if isDigitChar c then (takeDigits k l).map (fun p => (c :: p.1, p.2)) else none

theorem takeDigits_sound :
    ∀ k l g r, takeDigits k l = some (g, r) →
      l = g ++ r ∧ g.length = k ∧ ∀ c ∈ g, isDigitChar c := by
  intro k
  induction k with
  | zero =>
    intro l g r h
    simp [takeDigits] at h
    simp [h.1, h.2]
  | succ n ih =>
    intro l g r h
    match l with
    | [] => simp [takeDigits] at h
    | c :: t =>
      simp only [takeDigits] at h
      by_cases hd : isDigitChar c
      · rw [if_pos hd] at h
        cases ht : takeDigits n t with
        | none => rw [ht] at h; simp at h
        | some p =>
          rw [ht] at h
          simp at h
          obtain ⟨ih1, ih2, ih3⟩ := ih t p.1 p.2 (by rw [ht])
          rw [← h.1, ← h.2]
          constructor
          · simp [ih1]
          · constructor
            · simp [ih2]
            · intro x hx
              rcases List.mem_cons.mp hx with hx | hx
              · exact hx ▸ hd
              · exact ih3 x hx
      · rw [if_neg hd] at h; simp at h

theorem takeDigits_exact :
    ∀ g rest, (∀ c ∈ g, isDigitChar c) →
      takeDigits g.length (g ++ rest) = some (g, rest) := by
  intro g
  induction g with
  | nil => intro rest h; rfl
  | cons c t ih =>
    intro rest h
    have hd := h c (by simp)
    simp only [List.length_cons, List.cons_append, takeDigits, if_pos hd]
    simp [ih rest (fun x hx => h x (List.mem_cons_of_mem _ hx))]

namespace CChip

/-- The message `MSGS("microchip cannot be blank")` (emitted regardless of
`fMessage`, exactly as in the source). -/
def blankChipMsg : Str := ("microchip cannot be blank").data

/-- The message `MSGS("invalid microchip ...")`. -/
def invalidChipMsg : Str := ("invalid microchip").data

/-- The regex `^9\d{14}$` (FDXB / ISO chips). -/
def isISO (l : Str) : Bool :=
  match l with
  | c :: t => c == '9' && t.length == 14 && t.all isDigitChar
  | [] => false

/-- The regex `^202\d{12}$` (the special hack for Pumpkin's chip). -/
def isPumpkin (l : Str) : Bool :=
  match l with
  | a :: b :: c :: t => a == '2' && b == '0' && c == '2' && t.length == 12 && t.all isDigitChar
  | _ => false

/-- The regex `^[[:xdigit:]]{10}$` (FDXA 10-digit hexadecimal chips). -/
def isFDXA (l : Str) : Bool := l.length == 10 && l.all isXDigitChar

/-- The bracket class `[ \*]` of the legacy-chip regex. -/
def isChipSep (c : Char) : Bool := c == ' ' || c == '*'

/-- Consume the optional separator `[ \*]?` of the legacy-chip regex.
The class is disjoint from `\d`, which follows it in the pattern, so
consuming a separator exactly when one is present is faithful to the regex. -/
def optChipSep (l : Str) : Str :=
  match l with
  | c :: t => if isChipSep c then t else c :: t
  | [] => []

/-- The regex `^(\d{3})[ \*]?(\d{3})[ \*]?(\d{3})$` for legacy 9-digit chips,
returning the three concatenated digit groups as the source builds them. -/
def legacyMatch (l : Str) : Option Str :=
  match takeDigits 3 l with
  | none => none
  | some (g1, r1) =>
    match takeDigits 3 (optChipSep r1) with
    | none => none
    | some (g2, r3) =>
      match takeDigits 3 (optChipSep r3) with
      | none => none
      | some (g3, r5) => if r5 = [] then some (g1 ++ g2 ++ g3) else none

/-- CChip::VerifyMicrochip.  Returns the verdict, the (possibly rewritten)
chip value, and the emitted messages.  Note that the blank-chip message is
emitted even when `fMessage` is false, exactly as in the source. -/
def VerifyMicrochip (sChip : Str) (fMessage : Bool) : Bool × Str × List Str :=
  if sChip = [] then (false, sChip, [blankChipMsg])
  else if isISO sChip then (true, sChip, [])
  else if isPumpkin sChip then (true, sChip, [])
  else if isFDXA sChip then (true, sChip, [])
  else
    match legacyMatch sChip with
    | some sNew => (true, sNew, [])
    | none => (false, sChip, if fMessage then [invalidChipMsg] else [])

end CChip

theorem digit_not_chipSep (c : Char) (h : isDigitChar c = true) : CChip.isChipSep c = false := by
  rcases Bool.eq_false_or_eq_true (CChip.isChipSep c) with ht | hf
  · exfalso
    simp [CChip.isChipSep] at ht
    rcases ht with h1 | h1 <;> subst h1 <;> exact absurd h (by decide)
  · exact hf

namespace CChip

/-- Decomposition of a string as a legacy 9-digit chip, following the claim's
wording: three groups of three decimal digits, with at most one separator
(a space or an asterisk) between consecutive groups. -/
def ChipLegacyDecomp (l g1 s1 g2 s2 g3 : Str) : Prop :=
  g1.length = 3 ∧ g2.length = 3 ∧ g3.length = 3 ∧
  (∀ c ∈ g1, isDigitChar c) ∧ (∀ c ∈ g2, isDigitChar c) ∧ (∀ c ∈ g3, isDigitChar c) ∧
  (s1 = [] ∨ s1 = [' '] ∨ s1 = ['*']) ∧ (s2 = [] ∨ s2 = [' '] ∨ s2 = ['*']) ∧
  l = g1 ++ s1 ++ g2 ++ s2 ++ g3

theorem optChipSep_decomp (r : Str) :
    ∃ s, (s = [] ∨ s = [' '] ∨ s = ['*']) ∧ r = s ++ optChipSep r := by
  match r with
  | [] => exact ⟨[], Or.inl rfl, rfl⟩
  | c :: t =>
    by_cases hs : isChipSep c = true
    · refine ⟨[c], ?_, ?_⟩
      · simp [isChipSep] at hs
        rcases hs with h | h <;> subst h <;> simp
      · simp [optChipSep, hs]
    · refine ⟨[], Or.inl rfl, ?_⟩
      simp [optChipSep, Bool.eq_false_iff.mpr hs]

theorem legacyMatch_sound (l t : Str) (h : legacyMatch l = some t) :
    ∃ g1 s1 g2 s2 g3, ChipLegacyDecomp l g1 s1 g2 s2 g3 ∧ t = g1 ++ g2 ++ g3 := by
  rw [legacyMatch] at h
  cases h1 : takeDigits 3 l with
  | none => rw [h1] at h; simp at h
  | some p1 =>
    obtain ⟨g1, r1⟩ := p1
    rw [h1] at h
    simp only at h
    cases h2 : takeDigits 3 (optChipSep r1) with
    | none => rw [h2] at h; simp at h
    | some p2 =>
      obtain ⟨g2, r3⟩ := p2
      rw [h2] at h
      simp only at h
      cases h3 : takeDigits 3 (optChipSep r3) with
      | none => rw [h3] at h; simp at h
      | some p3 =>
        obtain ⟨g3, r5⟩ := p3
        rw [h3] at h
        simp only at h
        by_cases h5 : r5 = []
        · rw [if_pos h5] at h
          obtain ⟨d1a, d1b, d1c⟩ := takeDigits_sound 3 l g1 r1 h1
          obtain ⟨d2a, d2b, d2c⟩ := takeDigits_sound 3 (optChipSep r1) g2 r3 h2
          obtain ⟨d3a, d3b, d3c⟩ := takeDigits_sound 3 (optChipSep r3) g3 r5 h3
          obtain ⟨s1, hs1, hr1⟩ := optChipSep_decomp r1
          obtain ⟨s2, hs2, hr3⟩ := optChipSep_decomp r3
          refine ⟨g1, s1, g2, s2, g3, ⟨d1b, d2b, d3b, d1c, d2c, d3c, hs1, hs2, ?_⟩, ?_⟩
          · rw [d1a, hr1, d2a, hr3, d3a, h5]
            simp [List.append_assoc]
          · simp at h
            simpa [List.append_assoc] using h.symm
        · rw [if_neg h5] at h; simp at h

theorem legacyMatch_complete (l g1 s1 g2 s2 g3 : Str)
    (h : ChipLegacyDecomp l g1 s1 g2 s2 g3) :
    legacyMatch l = some (g1 ++ g2 ++ g3) := by
  obtain ⟨hl1, hl2, hl3, hd1, hd2, hd3, hs1, hs2, hl⟩ := h
  have step1 : takeDigits 3 l = some (g1, s1 ++ g2 ++ s2 ++ g3) := by
    have := takeDigits_exact g1 (s1 ++ g2 ++ s2 ++ g3) hd1
    rw [hl1] at this
    rw [hl]
    rw [← this]
    simp [List.append_assoc]
  have hg2ne : ∃ c t, g2 = c :: t := by
    cases g2 with
    | nil => simp at hl2
    | cons c t => exact ⟨c, t, rfl⟩
  have hg3ne : ∃ c t, g3 = c :: t := by
    cases g3 with
    | nil => simp at hl3
    | cons c t => exact ⟨c, t, rfl⟩
  obtain ⟨c2, t2, hg2⟩ := hg2ne
  obtain ⟨c3, t3, hg3⟩ := hg3ne
  have sep1 : optChipSep (s1 ++ g2 ++ s2 ++ g3) = g2 ++ s2 ++ g3 := by
    rcases hs1 with h | h | h <;> subst h
    · rw [hg2]
      have hnd := digit_not_chipSep c2 (hd2 c2 (by rw [hg2]; simp))
      simp [optChipSep, hnd]
    · simp [optChipSep, isChipSep]
    · simp [optChipSep, isChipSep]
  have step2 : takeDigits 3 (g2 ++ s2 ++ g3) = some (g2, s2 ++ g3) := by
    have := takeDigits_exact g2 (s2 ++ g3) hd2
    rw [hl2] at this
    rw [← this]
    simp [List.append_assoc]
  have sep2 : optChipSep (s2 ++ g3) = g3 := by
    rcases hs2 with h | h | h <;> subst h
    · rw [hg3]
      have hnd := digit_not_chipSep c3 (hd3 c3 (by rw [hg3]; simp))
      simp [optChipSep, hnd]
    · simp [optChipSep, isChipSep]
    · simp [optChipSep, isChipSep]
  have step3 : takeDigits 3 g3 = some (g3, []) := by
    have := takeDigits_exact g3 [] hd3
    rw [hl3] at this
    simpa using this
  rw [legacyMatch, step1]
  simp only
  rw [sep1, step2]
  simp only
  rw [sep2, step3]
  simp

theorem ChipLegacyDecomp_length (l g1 s1 g2 s2 g3 : Str)
    (h : ChipLegacyDecomp l g1 s1 g2 s2 g3) :
    l.length = 9 + s1.length + s2.length ∧ s1.length ≤ 1 ∧ s2.length ≤ 1 := by
  obtain ⟨hl1, hl2, hl3, _, _, _, hs1, hs2, hl⟩ := h
  have e1 : s1.length ≤ 1 := by rcases hs1 with h | h | h <;> subst h <;> simp
  have e2 : s2.length ≤ 1 := by rcases hs2 with h | h | h <;> subst h <;> simp
  refine ⟨?_, e1, e2⟩
  rw [hl]
  simp [List.length_append, hl1, hl2, hl3]
  omega

end CChip

namespace CChip

theorem isISO_spec (l : Str) :
    isISO l = true ↔ ∃ t, l = '9' :: t ∧ l.length = 15 ∧ ∀ c ∈ l, isDigitChar c := by
  cases l with
  | nil => simp [isISO]
  | cons c t =>
    simp only [isISO, Bool.and_eq_true, beq_iff_eq, List.all_eq_true]
    constructor
    · rintro ⟨⟨h9, h14⟩, hall⟩
      subst h9
      refine ⟨t, rfl, by simp; omega, ?_⟩
      intro x hx
      rcases List.mem_cons.mp hx with h | h
      · subst h; decide
      · exact hall x h
    · rintro ⟨t', heq, hlen, hall⟩
      obtain ⟨h9, ht⟩ : c = '9' ∧ t = t' := by
        constructor <;> injection heq
      subst h9
      refine ⟨⟨rfl, ?_⟩, ?_⟩
      · simp at hlen; omega
      · intro x hx
        exact hall x (List.mem_cons_of_mem _ hx)

theorem isPumpkin_spec (l : Str) :
    isPumpkin l = true ↔
      ∃ t, l = '2' :: '0' :: '2' :: t ∧ l.length = 15 ∧ ∀ c ∈ t, isDigitChar c := by
  match l with
  | [] => simp [isPumpkin]
  | [a] => simp [isPumpkin]
  | [a, b] => simp [isPumpkin]
  | a :: b :: c :: t =>
    simp only [isPumpkin, Bool.and_eq_true, beq_iff_eq, List.all_eq_true]
    constructor
    · rintro ⟨⟨⟨⟨h2, h0⟩, h2'⟩, h12⟩, hall⟩
      subst h2; subst h0; subst h2'
      exact ⟨t, rfl, by simp; omega, hall⟩
    · rintro ⟨t', heq, hlen, hall⟩
      injection heq with e1 e2
      injection e2 with e3 e4
      injection e4 with e5 e6
      subst e1; subst e3; subst e5; subst e6
      refine ⟨⟨⟨⟨rfl, rfl⟩, rfl⟩, ?_⟩, hall⟩
      simp at hlen; omega

theorem isFDXA_spec (l : Str) :
    isFDXA l = true ↔ (l.length = 10 ∧ ∀ c ∈ l, isXDigitChar c) := by
  simp [isFDXA, List.all_eq_true]

theorem ChipLegacyDecomp_not_ISO (l g1 s1 g2 s2 g3 : Str)
    (h : ChipLegacyDecomp l g1 s1 g2 s2 g3) : isISO l = false := by
  obtain ⟨hlen, e1, e2⟩ := ChipLegacyDecomp_length l g1 s1 g2 s2 g3 h
  rcases Bool.eq_false_or_eq_true (isISO l) with ht | hf
  · obtain ⟨t, _, h15, _⟩ := (isISO_spec l).mp ht
    omega
  · exact hf

theorem ChipLegacyDecomp_not_Pumpkin (l g1 s1 g2 s2 g3 : Str)
    (h : ChipLegacyDecomp l g1 s1 g2 s2 g3) : isPumpkin l = false := by
  obtain ⟨hlen, e1, e2⟩ := ChipLegacyDecomp_length l g1 s1 g2 s2 g3 h
  rcases Bool.eq_false_or_eq_true (isPumpkin l) with ht | hf
  · obtain ⟨t, _, h15, _⟩ := (isPumpkin_spec l).mp ht
    omega
  · exact hf

theorem ChipLegacyDecomp_not_FDXA (l g1 s1 g2 s2 g3 : Str)
    (h : ChipLegacyDecomp l g1 s1 g2 s2 g3) : isFDXA l = false := by
  obtain ⟨hlen, e1, e2⟩ := ChipLegacyDecomp_length l g1 s1 g2 s2 g3 h
  rcases Bool.eq_false_or_eq_true (isFDXA l) with ht | hf
  · obtain ⟨h10, hall⟩ := (isFDXA_spec l).mp ht
    obtain ⟨_, _, _, _, _, _, hs1, hs2, hl⟩ := h
    exfalso
    have hsep : (' ' ∈ l) ∨ ('*' ∈ l) := by
      have honesep : s1.length + s2.length = 1 := by omega
      rcases hs1 with h1 | h1 | h1 <;> rcases hs2 with h2 | h2 | h2 <;>
        subst h1 <;> subst h2 <;> simp at honesep ⊢ <;> rw [hl] <;> simp
    rcases hsep with hm | hm
    · exact absurd (hall ' ' hm) (by decide)
    · exact absurd (hall '*' hm) (by decide)
  · exact hf

end CChip

/-- The ASCII lowering performed by `CDog::tolower` (checks `isupper`, then
applies C `tolower`; the data is ASCII). -/
def lowerChar (c : Char) : Char :=
  if 'A' ≤ c ∧ c ≤ 'Z' then Char.ofNat (c.toNat + 32) else c

/-- CDog::tolower on a whole string. -/
def strToLower (s : Str) : Str := s.map lowerChar

/-- `std::stoi` on a digit string (the program only applies it to regex
captures of `\d` classes whose values stay far below the int range). -/
def digitsToNat (l : Str) : Nat :=
  l.foldl (fun acc c => 10 * acc + (c.toNat - ('0').toNat)) 0

/-- The regex class `\s` (whitespace). -/
def isWSChar (c : Char) : Bool :=
  c == ' ' || c == Char.ofNat 9 || c == Char.ofNat 10 || c == Char.ofNat 11 ||
  c == Char.ofNat 12 || c == Char.ofNat 13

/-- Match `\d+` greedily (the pattern text following it in this program is
never a digit, so maximal munch is faithful). -/
def takeDigits1 (l : Str) : Option (Str × Str) :=
  let ds := l.takeWhile isDigitChar
  if ds = [] then none else some (ds, l.dropWhile isDigitChar)

/-- Match one whitespace character (`\s`). -/
def matchWS (l : Str) : Option Str :=
  match l with
  | c :: t => if isWSChar c then some t else none
  | [] => none

/-- Match a literal string. -/
def matchLit : Str → Str → Option Str
  | [], l => some l
  | _ :: _, [] => none
  | c :: cs, x :: xs => if x = c then matchLit cs xs else none

namespace CDog

/-- CDog::ParseDate: the regex `^(\d{4})\-(\d{2})\-(\d{2})$` plus the range
checks on month, day and year.  Returns `(day, month, year)`, mirroring the
source's out-parameters. -/
def ParseDate (sDate : Str) : Option (Nat × Nat × Nat) :=
  match takeDigits 4 sDate with
  | none => none
  | some (y, r1) =>
    match r1 with
    | '-' :: r2 =>
      match takeDigits 2 r2 with
      | none => none
      | some (m, r3) =>
        match r3 with
        | '-' :: r4 =>
          match takeDigits 2 r4 with
          | none => none
          | some (d, r5) =>
            if r5 = [] then
              let nYear := digitsToNat y
              let nMonth := digitsToNat m
              let nDay := digitsToNat d
              if nMonth = 0 ∨ nMonth > 12 then none
              else if nDay = 0 ∨ nDay > 31 then none
              else if nYear < 1990 ∨ nYear > 2099 then none
              else some (nDay, nMonth, nYear)
            else none
        | _ => none
    | _ => none

/-- Zero-padded decimal print, as `%02d` / `%04d` do for the non-negative
values this program reaches. -/
def padNum (width : Nat) (n : Nat) : Str :=
  let s := Nat.toDigits 10 n
  List.replicate (width - s.length) '0' ++ s

/-- CDog::FormatDate: `sprintf("%02d/%02d/%04d", nMonth, nDay, nYear)` —
note the argument order: the MONTH is printed first. -/
def FormatDate (nDay nMonth nYear : Nat) : Str :=
  padNum 2 nMonth ++ ('/' :: padNum 2 nDay) ++ ('/' :: padNum 4 nYear)

/-- The age regex `^(\d+)\syears\s(\d+)\smonths$` of CDog::ComputeBirthday,
applied to the lowercased age string. -/
def parseAge (sAge : Str) : Option (Nat × Nat) :=
  match takeDigits1 sAge with
  | none => none
  | some (ys, r1) =>
    match matchWS r1 with
    | none => none
    | some r2 =>
      match matchLit (("years").data) r2 with
      | none => none
      | some r3 =>
        match matchWS r3 with
        | none => none
        | some r4 =>
          match takeDigits1 r4 with
          | none => none
          | some (ms, r5) =>
            match matchWS r5 with
            | none => none
            | some r6 =>
              match matchLit (("months").data) r6 with
              | none => none
              | some r7 =>
                if r7 = [] then some (digitsToNat ys, digitsToNat ms) else none

/-- CDog::ComputeBirthday, as a function of the two record fields it reads
(`m_sDateAcquired` and `m_sAge`).  The borrow arithmetic is on int32 in the
source; the values reached here (years 1970..2099, months -11..12) are far
from overflow, so exact integers model it. -/
def ComputeBirthday (sDateAcquired sAge : Str) : Option Str :=
  if sDateAcquired = [] ∨ sAge = [] then none
  else
    match parseAge (strToLower sAge) with
    | none => none
    | some (nAgeYears, nAgeMonths) =>
      if nAgeMonths > 12 ∨ nAgeYears > 20 then none
      else
        match ParseDate sDateAcquired with
        | none => none
        | some (nDayAcquired, nMonthAcquired, nYearAcquired) =>
          let nYear : Int := (nYearAcquired : Int) - (nAgeYears : Int)
          let nMonth : Int := (nMonthAcquired : Int) - (nAgeMonths : Int)
          let nYear' : Int := if nMonth < 1 then nYear - 1 else nYear
          let nMonth' : Int := if nMonth < 1 then nMonth + 12 else nMonth
          some (FormatDate nDayAcquired nMonth'.toNat nYear'.toNat)

end CDog

/-- The first separator class of the phone regex (between area code and
prefix): whitespace, hyphen, slash, asterisk, comma, period — and no
equals sign. -/
def isSepA (c : Char) : Bool :=
  isWSChar c || c == '-' || c == '/' || c == '*' || c == ',' || c == '.'

/-- The second separator class of the phone regex (between prefix and
line number): whitespace, hyphen, equals, asterisk, comma, period — and
no slash. -/
def isSepB (c : Char) : Bool :=
  isWSChar c || c == '-' || c == '=' || c == '*' || c == ',' || c == '.'

theorem wsChar_cases (c : Char) (h : isWSChar c = true) :
    c = ' ' ∨ c = Char.ofNat 9 ∨ c = Char.ofNat 10 ∨ c = Char.ofNat 11 ∨
    c = Char.ofNat 12 ∨ c = Char.ofNat 13 := by
  simp only [isWSChar, Bool.or_eq_true, beq_iff_eq] at h
  tauto

theorem wsChar_not_digit (c : Char) (h : isWSChar c = true) : isDigitChar c = false := by
  rcases wsChar_cases c h with h1 | h1 | h1 | h1 | h1 | h1 <;> subst h1 <;> decide

theorem sepA_cases (c : Char) (h : isSepA c = true) :
    isWSChar c = true ∨ c = '-' ∨ c = '/' ∨ c = '*' ∨ c = ',' ∨ c = '.' := by
  simp only [isSepA, Bool.or_eq_true, beq_iff_eq] at h
  tauto

theorem sepB_cases (c : Char) (h : isSepB c = true) :
    isWSChar c = true ∨ c = '-' ∨ c = '=' ∨ c = '*' ∨ c = ',' ∨ c = '.' := by
  simp only [isSepB, Bool.or_eq_true, beq_iff_eq] at h
  tauto

theorem sepA_not_digit (c : Char) (h : isSepA c = true) : isDigitChar c = false := by
  rcases sepA_cases c h with h1 | h1 | h1 | h1 | h1 | h1
  · exact wsChar_not_digit c h1
  all_goals subst h1; decide

theorem sepB_not_digit (c : Char) (h : isSepB c = true) : isDigitChar c = false := by
  rcases sepB_cases c h with h1 | h1 | h1 | h1 | h1 | h1
  · exact wsChar_not_digit c h1
  all_goals subst h1; decide

theorem digit_char_ne (c : Char) (h : isDigitChar c = true) :
    c ≠ '+' ∧ c ≠ '(' ∧ c ≠ ')' ∧ c ≠ '1' ∨ c = '1' := by
  by_cases h1 : c = '1'
  · exact Or.inr h1
  · refine Or.inl ⟨?_, ?_, ?_, h1⟩ <;> intro he <;> subst he <;> exact absurd h (by decide)

theorem digit_not_ws (c : Char) (h : isDigitChar c = true) : isWSChar c = false := by
  rcases Bool.eq_false_or_eq_true (isWSChar c) with ht | hf
  · exact absurd (wsChar_not_digit c ht) (by simp [h])
  · exact hf

theorem digit_not_sepA (c : Char) (h : isDigitChar c = true) : isSepA c = false := by
  rcases Bool.eq_false_or_eq_true (isSepA c) with ht | hf
  · exact absurd (sepA_not_digit c ht) (by simp [h])
  · exact hf

theorem digit_not_sepB (c : Char) (h : isDigitChar c = true) : isSepB c = false := by
  rcases Bool.eq_false_or_eq_true (isSepB c) with ht | hf
  · exact absurd (sepB_not_digit c ht) (by simp [h])
  · exact hf

theorem dropWhile_pass (q : Char → Bool) (s : Str) (hs : ∀ c ∈ s, q c = true)
    (c : Char) (t : Str) (hc : q c = false) :
    (s ++ c :: t).dropWhile q = c :: t := by
  induction s with
  | nil => simp [List.dropWhile, hc]
  | cons x xs ih =>
    have hx := hs x (by simp)
    simp only [List.cons_append, List.dropWhile, hx]
    exact ih (fun y hy => hs y (List.mem_cons_of_mem _ hy))

namespace CDog

/-- Tag for the `BADDOGS(..., "invalid ... phone ...")` message. -/
def invalidPhoneMsg : Str := ("invalid phone").data

/-- The part of the phone regex after the optional plus and one: an
optional whitespace, an optional opening parenthesis, three digits (the
area code), an optional closing parenthesis, any number of class-A
separators, three digits (the prefix), any number of class-B separators,
and four digits (the line number), anchored at the end.
Every step is deterministic: each optional literal or separator class is
disjoint from the digits that must follow it, so the greedy reading is the
only possible one.  `skipWS` consumes the optional single whitespace. -/
def skipWS (l : Str) : Str :=
  match l with
  | c :: t => if isWSChar c then t else c :: t
  | [] => []

/-- Consume the optional opening parenthesis of the phone regex. -/
def skipLParen (l : Str) : Str :=
  match l with
  | '(' :: t => t
  | _ => l

/-- Consume the optional closing parenthesis of the phone regex. -/
def skipRParen (l : Str) : Str :=
  match l with
  | ')' :: t => t
  | _ => l

/-- The digits-and-separators part of the phone pattern, after the optional
whitespace and the optional parentheses handling at each point. -/
def phoneCore (l : Str) : Option (Str × Str × Str) :=
  match takeDigits 3 (skipLParen (skipWS l)) with
  | none => none
  | some (a, r) =>
    match takeDigits 3 ((skipRParen r).dropWhile isSepA) with
    | none => none
    | some (p, r3) =>
      match takeDigits 4 (r3.dropWhile isSepB) with
      | none => none
      | some (n, r5) => if r5 = [] then some (a, p, n) else none

/-- The full phone regex `^\+?1?\s?\(?(\d\d\d)\)?...$` of CDog::VerifyPhone.
The leading `\+?` is deterministic (nothing later in the pattern matches a
plus sign), but `1?` is a genuine backtracking point when the area code
itself begins with a 1; like the regex engine, try consuming the 1 first
and fall back to leaving it.  `skipPlus` consumes the optional plus. -/
def skipPlus (l : Str) : Str :=
  match l with
  | '+' :: t => t
  | _ => l

def phoneMatch (l : Str) : Option (Str × Str × Str) :=
  match skipPlus l with
  | [] => phoneCore []
  | c :: t =>
    if c = '1' then
      match phoneCore t with
      | some x => some x
      | none => phoneCore (c :: t)
    else phoneCore (c :: t)

/-- CDog::VerifyPhone, as a function of the phone field it verifies and
normalizes.  An empty value or the literal "none" is accepted and cleared;
a match is replaced by the concatenated digit groups; anything else is
cleared and (unless `fQuiet`) reported. -/
def VerifyPhone (sPhone : Str) (fQuiet : Bool) : Bool × Str × List Str :=
  if sPhone = [] ∨ sPhone = ("none").data then (true, [], [])
  else
    match phoneMatch sPhone with
    | none => (false, [], if fQuiet then [] else [invalidPhoneMsg])
    | some (a, p, n) => (true, a ++ p ++ n, [])

end CDog

namespace CDog

/-- Decomposition of a string according to the phone pattern after the
optional plus and one: optional single whitespace, optional opening
parenthesis, 3-digit area code, optional closing parenthesis, class-A
separators, 3-digit prefix, class-B separators, 4-digit line number. -/
def PhoneCoreShape (l a p n : Str) : Prop :=
  ∃ w lp rp s1 s2,
    (w = [] ∨ ∃ c, w = [c] ∧ isWSChar c = true) ∧
    (lp = [] ∨ lp = ['(']) ∧ (rp = [] ∨ rp = [')']) ∧
    (∀ c ∈ s1, isSepA c = true) ∧ (∀ c ∈ s2, isSepB c = true) ∧
    a.length = 3 ∧ p.length = 3 ∧ n.length = 4 ∧
    (∀ c ∈ a, isDigitChar c = true) ∧ (∀ c ∈ p, isDigitChar c = true) ∧
    (∀ c ∈ n, isDigitChar c = true) ∧
    l = w ++ lp ++ a ++ rp ++ s1 ++ p ++ s2 ++ n

/-- Full decomposition according to the phone regex: an optional plus, an
optional one, then the core shape. -/
def PhoneShape (l a p n : Str) : Prop :=
  ∃ pl one rest,
    (pl = [] ∨ pl = ['+']) ∧ (one = [] ∨ one = ['1']) ∧
    PhoneCoreShape rest a p n ∧ l = pl ++ one ++ rest

theorem skipWS_decomp (l : Str) :
    ∃ w, (w = [] ∨ ∃ c, w = [c] ∧ isWSChar c = true) ∧ l = w ++ skipWS l := by
  match l with
  | [] => exact ⟨[], Or.inl rfl, rfl⟩
  | c :: t =>
    by_cases hw : isWSChar c = true
    · exact ⟨[c], Or.inr ⟨c, rfl, hw⟩, by simp [skipWS, hw]⟩
    · refine ⟨[], Or.inl rfl, ?_⟩
      simp [skipWS, Bool.eq_false_iff.mpr hw]

theorem skipLParen_decomp (l : Str) :
    ∃ lp, (lp = [] ∨ lp = ['(']) ∧ l = lp ++ skipLParen l := by
  match l with
  | [] => exact ⟨[], Or.inl rfl, rfl⟩
  | c :: t =>
    by_cases hc : c = '('
    · subst hc
      exact ⟨['('], Or.inr rfl, by simp [skipLParen]⟩
    · refine ⟨[], Or.inl rfl, ?_⟩
      simp only [List.nil_append, skipLParen]
      split
      · next heq => exact absurd (by injection heq) hc
      · rfl

theorem skipRParen_decomp (l : Str) :
    ∃ rp, (rp = [] ∨ rp = [')']) ∧ l = rp ++ skipRParen l := by
  match l with
  | [] => exact ⟨[], Or.inl rfl, rfl⟩
  | c :: t =>
    by_cases hc : c = ')'
    · subst hc
      exact ⟨[')'], Or.inr rfl, by simp [skipRParen]⟩
    · refine ⟨[], Or.inl rfl, ?_⟩
      simp only [List.nil_append, skipRParen]
      split
      · next heq => exact absurd (by injection heq) hc
      · rfl

theorem phoneCore_sound (l a p n : Str) (h : phoneCore l = some (a, p, n)) :
    PhoneCoreShape l a p n := by
  rw [phoneCore] at h
  cases h1 : takeDigits 3 (skipLParen (skipWS l)) with
  | none => rw [h1] at h; simp at h
  | some q1 =>
    obtain ⟨a', r⟩ := q1
    rw [h1] at h
    simp only at h
    cases h2 : takeDigits 3 ((skipRParen r).dropWhile isSepA) with
    | none => rw [h2] at h; simp at h
    | some q2 =>
      obtain ⟨p', r3⟩ := q2
      rw [h2] at h
      simp only at h
      cases h3 : takeDigits 4 (r3.dropWhile isSepB) with
      | none => rw [h3] at h; simp at h
      | some q3 =>
        obtain ⟨n', r5⟩ := q3
        rw [h3] at h
        simp only at h
        by_cases h5 : r5 = []
        · rw [if_pos h5] at h
          simp at h
          obtain ⟨ha, hp, hn⟩ := h
          rw [ha] at h1
          rw [hp] at h2
          rw [hn, h5] at h3
          obtain ⟨w, hw, hlw⟩ := skipWS_decomp l
          obtain ⟨lp, hlp, hllp⟩ := skipLParen_decomp (skipWS l)
          obtain ⟨d1a, d1b, d1c⟩ := takeDigits_sound 3 _ a r h1
          obtain ⟨rp, hrp, hlrp⟩ := skipRParen_decomp r
          have hs1 : ∀ c ∈ (skipRParen r).takeWhile isSepA, isSepA c = true :=
            fun c hc => List.mem_takeWhile_imp hc
          have hsplit1 : skipRParen r
              = (skipRParen r).takeWhile isSepA ++ (skipRParen r).dropWhile isSepA :=
            (List.takeWhile_append_dropWhile isSepA (skipRParen r)).symm
          obtain ⟨d2a, d2b, d2c⟩ := takeDigits_sound 3 _ p r3 h2
          have hs2 : ∀ c ∈ r3.takeWhile isSepB, isSepB c = true :=
            fun c hc => List.mem_takeWhile_imp hc
          have hsplit2 : r3 = r3.takeWhile isSepB ++ r3.dropWhile isSepB :=
            (List.takeWhile_append_dropWhile isSepB r3).symm
          obtain ⟨d3a, d3b, d3c⟩ := takeDigits_sound 4 _ n [] h3
          have er3 : r3 = r3.takeWhile isSepB ++ (n ++ []) := by
            rw [← d3a]
            exact hsplit2
          have er : r = rp ++ ((skipRParen r).takeWhile isSepA ++ (p ++ r3)) := by
            rw [← d2a, ← hsplit1]
            exact hlrp
          have el : l = w ++ (lp ++ (a ++ r)) := by
            rw [← d1a, ← hllp]
            exact hlw
          have c1 : r3 = r3.takeWhile isSepB ++ n := by simpa using er3
          have c2 : r = rp ++ ((skipRParen r).takeWhile isSepA
              ++ (p ++ (r3.takeWhile isSepB ++ n))) := by
            calc r = rp ++ ((skipRParen r).takeWhile isSepA ++ (p ++ r3)) := er
              _ = rp ++ ((skipRParen r).takeWhile isSepA
                    ++ (p ++ (r3.takeWhile isSepB ++ n))) := by
                  conv_lhs => rw [c1]
          have c3 : l = w ++ (lp ++ (a ++ (rp ++ ((skipRParen r).takeWhile isSepA
              ++ (p ++ (r3.takeWhile isSepB ++ n)))))) := by
            calc l = w ++ (lp ++ (a ++ r)) := el
              _ = w ++ (lp ++ (a ++ (rp ++ ((skipRParen r).takeWhile isSepA
                    ++ (p ++ (r3.takeWhile isSepB ++ n)))))) := by
                  conv_lhs => rw [c2]
          refine ⟨w, lp, rp, (skipRParen r).takeWhile isSepA, r3.takeWhile isSepB,
            hw, hlp, hrp, hs1, hs2, d1b, d2b, d3b, d1c, d2c, d3c, ?_⟩
          rw [c3]
          simp [List.append_assoc]
        · rw [if_neg h5] at h; simp at h

end CDog

namespace CDog

theorem skipWS_ne (c : Char) (t : Str) (h : isWSChar c = false) :
    skipWS (c :: t) = c :: t := by
  simp [skipWS, h]

theorem skipLParen_ne (c : Char) (t : Str) (h : c ≠ '(') :
    skipLParen (c :: t) = c :: t := by
  simp only [skipLParen]
  split
  · next heq => exact absurd (by injection heq) h
  · rfl

theorem skipRParen_ne (c : Char) (t : Str) (h : c ≠ ')') :
    skipRParen (c :: t) = c :: t := by
  simp only [skipRParen]
  split
  · next heq => exact absurd (by injection heq) h
  · rfl

theorem phoneCore_complete (l a p n : Str) (h : PhoneCoreShape l a p n) :
    phoneCore l = some (a, p, n) := by
  obtain ⟨w, lp, rp, s1, s2, hw, hlp, hrp, hs1, hs2, ha3, hp3, hn4, had, hpd, hnd, hl⟩ := h
  obtain ⟨ca, ta, rfl⟩ : ∃ c t, a = c :: t := by
    cases a with
    | nil => simp at ha3
    | cons x y => exact ⟨x, y, rfl⟩
  obtain ⟨cp, tp, rfl⟩ : ∃ c t, p = c :: t := by
    cases p with
    | nil => simp at hp3
    | cons x y => exact ⟨x, y, rfl⟩
  obtain ⟨cn, tn, rfl⟩ : ∃ c t, n = c :: t := by
    cases n with
    | nil => simp at hn4
    | cons x y => exact ⟨x, y, rfl⟩
  have hcad : isDigitChar ca = true := had ca (by simp)
  have hcpd : isDigitChar cp = true := hpd cp (by simp)
  have hcnd : isDigitChar cn = true := hnd cn (by simp)
  have hl' : l = w ++ (lp ++ ((ca :: ta) ++ (rp ++ (s1 ++ ((cp :: tp) ++ (s2 ++ (cn :: tn))))))) := by
    rw [hl]
    simp [List.append_assoc]
  have E1 : skipWS l = lp ++ ((ca :: ta) ++ (rp ++ (s1 ++ ((cp :: tp) ++ (s2 ++ (cn :: tn)))))) := by
    rw [hl']
    rcases hw with hw | ⟨c, hwc, hcws⟩
    · subst hw
      rw [List.nil_append]
      rcases hlp with hlp | hlp <;> subst hlp
      · rw [List.nil_append, List.cons_append]
        exact skipWS_ne ca _ (digit_not_ws ca hcad)
      · rw [List.cons_append, List.nil_append]
        exact skipWS_ne '(' _ (by decide)
    · subst hwc
      rw [List.cons_append, List.nil_append]
      simp [skipWS, hcws]
  have E2 : skipLParen (lp ++ ((ca :: ta) ++ (rp ++ (s1 ++ ((cp :: tp) ++ (s2 ++ (cn :: tn)))))))
      = (ca :: ta) ++ (rp ++ (s1 ++ ((cp :: tp) ++ (s2 ++ (cn :: tn))))) := by
    rcases hlp with hlp | hlp <;> subst hlp
    · rw [List.nil_append, List.cons_append]
      exact skipLParen_ne ca _ (by
        intro he
        rw [he] at hcad
        exact absurd hcad (by decide))
    · rfl
  have E3 : takeDigits 3 ((ca :: ta) ++ (rp ++ (s1 ++ ((cp :: tp) ++ (s2 ++ (cn :: tn))))))
      = some (ca :: ta, rp ++ (s1 ++ ((cp :: tp) ++ (s2 ++ (cn :: tn))))) := by
    have := takeDigits_exact (ca :: ta) (rp ++ (s1 ++ ((cp :: tp) ++ (s2 ++ (cn :: tn))))) had
    rwa [ha3] at this
  have E4 : skipRParen (rp ++ (s1 ++ ((cp :: tp) ++ (s2 ++ (cn :: tn)))))
      = s1 ++ ((cp :: tp) ++ (s2 ++ (cn :: tn))) := by
    rcases hrp with hrp | hrp <;> subst hrp
    · rw [List.nil_append]
      cases hs : s1 with
      | nil =>
        rw [List.nil_append, List.cons_append]
        exact skipRParen_ne cp _ (by
          intro he
          rw [he] at hcpd
          exact absurd hcpd (by decide))
      | cons cs ts =>
        rw [List.cons_append]
        refine skipRParen_ne cs _ ?_
        intro he
        have := hs1 cs (by rw [hs]; simp)
        rw [he] at this
        exact absurd this (by decide)
    · rfl
  have E5 : (s1 ++ ((cp :: tp) ++ (s2 ++ (cn :: tn)))).dropWhile isSepA
      = (cp :: tp) ++ (s2 ++ (cn :: tn)) := by
    rw [List.cons_append]
    exact dropWhile_pass isSepA s1 hs1 cp _ (digit_not_sepA cp hcpd)
  have E6 : takeDigits 3 ((cp :: tp) ++ (s2 ++ (cn :: tn)))
      = some (cp :: tp, s2 ++ (cn :: tn)) := by
    have := takeDigits_exact (cp :: tp) (s2 ++ (cn :: tn)) hpd
    rwa [hp3] at this
  have E7 : (s2 ++ (cn :: tn)).dropWhile isSepB = cn :: tn :=
    dropWhile_pass isSepB s2 hs2 cn tn (digit_not_sepB cn hcnd)
  have E8 : takeDigits 4 (cn :: tn) = some (cn :: tn, []) := by
    have := takeDigits_exact (cn :: tn) [] hnd
    rw [hn4] at this
    simpa using this
  rw [phoneCore, E1, E2, E3]
  simp only
  rw [E4, E5, E6]
  simp only
  rw [E7, E8]
  simp

end CDog

namespace CDog

theorem skipPlus_decomp (l : Str) :
    ∃ pl, (pl = [] ∨ pl = ['+']) ∧ l = pl ++ skipPlus l := by
  match l with
  | [] => exact ⟨[], Or.inl rfl, rfl⟩
  | c :: t =>
    by_cases hc : c = '+'
    · subst hc
      exact ⟨['+'], Or.inr rfl, by simp [skipPlus]⟩
    · refine ⟨[], Or.inl rfl, ?_⟩
      simp only [List.nil_append, skipPlus]
      split
      · next heq => exact absurd (by injection heq) hc
      · rfl

theorem skipPlus_ne (c : Char) (t : Str) (h : c ≠ '+') :
    skipPlus (c :: t) = c :: t := by
  simp only [skipPlus]
  split
  · next heq => exact absurd (by injection heq) h
  · rfl

theorem PhoneCoreShape_digitCount (l a p n : Str) (h : PhoneCoreShape l a p n) :
    l.countP isDigitChar = 10 := by
  obtain ⟨w, lp, rp, s1, s2, hw, hlp, hrp, hs1, hs2, ha3, hp3, hn4, had, hpd, hnd, hl⟩ := h
  have cw : w.countP isDigitChar = 0 := by
    rcases hw with hw | ⟨c, hwc, hcws⟩
    · subst hw; rfl
    · subst hwc
      simp [List.countP_cons, wsChar_not_digit c hcws]
  have clp : lp.countP isDigitChar = 0 := by
    rcases hlp with hlp | hlp <;> subst hlp
    · rfl
    · simp [List.countP_cons]
      decide
  have crp : rp.countP isDigitChar = 0 := by
    rcases hrp with hrp | hrp <;> subst hrp
    · rfl
    · simp [List.countP_cons]
      decide
  have cs1 : s1.countP isDigitChar = 0 :=
    List.countP_eq_zero.mpr (fun x hx => by simp [sepA_not_digit x (hs1 x hx)])
  have cs2 : s2.countP isDigitChar = 0 :=
    List.countP_eq_zero.mpr (fun x hx => by simp [sepB_not_digit x (hs2 x hx)])
  have ca : a.countP isDigitChar = 3 := by
    rw [List.countP_eq_length.mpr had]
    exact ha3
  have cp : p.countP isDigitChar = 3 := by
    rw [List.countP_eq_length.mpr hpd]
    exact hp3
  have cn : n.countP isDigitChar = 4 := by
    rw [List.countP_eq_length.mpr hnd]
    exact hn4
  rw [hl]
  simp [List.countP_append, cw, clp, crp, cs1, cs2, ca, cp, cn]

theorem phoneCore_digitCount (t : Str) (x : Str × Str × Str)
    (h : phoneCore t = some x) : t.countP isDigitChar = 10 := by
  obtain ⟨a, p, n⟩ := x
  exact PhoneCoreShape_digitCount t a p n (phoneCore_sound t a p n h)

theorem PhoneCoreShape_head (l a p n : Str) (h : PhoneCoreShape l a p n) :
    ∃ c t, l = c :: t ∧ (isWSChar c = true ∨ c = '(' ∨ isDigitChar c = true) := by
  obtain ⟨w, lp, rp, s1, s2, hw, hlp, hrp, hs1, hs2, ha3, hp3, hn4, had, hpd, hnd, hl⟩ := h
  obtain ⟨ca, ta, hca⟩ : ∃ c t, a = c :: t := by
    cases a with
    | nil => simp at ha3
    | cons x y => exact ⟨x, y, rfl⟩
  rcases hw with hw | ⟨c, hwc, hcws⟩
  · subst hw
    rcases hlp with hlp | hlp <;> subst hlp
    · refine ⟨ca, ta ++ (rp ++ (s1 ++ (p ++ (s2 ++ n)))), ?_, Or.inr (Or.inr (had ca (by rw [hca]; simp)))⟩
      rw [hl, hca]
      simp [List.append_assoc]
    · refine ⟨'(', a ++ (rp ++ (s1 ++ (p ++ (s2 ++ n)))), ?_, Or.inr (Or.inl rfl)⟩
      rw [hl]
      simp [List.append_assoc]
  · subst hwc
    refine ⟨c, lp ++ (a ++ (rp ++ (s1 ++ (p ++ (s2 ++ n))))), ?_, Or.inl hcws⟩
    rw [hl]
    simp [List.append_assoc]

theorem phoneMatch_sound (l a p n : Str) (h : phoneMatch l = some (a, p, n)) :
    PhoneShape l a p n := by
  obtain ⟨pl, hpl, hlpl⟩ := skipPlus_decomp l
  rw [phoneMatch] at h
  cases hl0 : skipPlus l with
  | nil =>
    rw [hl0] at h
    simp only at h
    exact absurd h (by intro hc; rw [show phoneCore [] = none from rfl] at hc; simp at hc)
  | cons c t =>
    rw [hl0] at h
    simp only at h
    rw [hl0] at hlpl
    by_cases h1 : c = '1'
    · rw [if_pos h1] at h
      subst h1
      cases hc : phoneCore t with
      | some x =>
        rw [hc] at h
        simp only at h
        obtain ⟨xa, xp, xn⟩ := x
        simp at h
        obtain ⟨e1, e2, e3⟩ := h
        rw [e1, e2, e3] at hc
        exact ⟨pl, ['1'], t, hpl, Or.inr rfl, phoneCore_sound t a p n hc, by
          rw [hlpl]; simp⟩
      | none =>
        rw [hc] at h
        simp only at h
        exact ⟨pl, [], '1' :: t, hpl, Or.inl rfl, phoneCore_sound _ a p n h, by
          rw [hlpl]; simp⟩
    · rw [if_neg h1] at h
      exact ⟨pl, [], c :: t, hpl, Or.inl rfl, phoneCore_sound _ a p n h, by
        rw [hlpl]; simp⟩

theorem phoneMatch_complete (l a p n : Str) (h : PhoneShape l a p n) :
    phoneMatch l = some (a, p, n) := by
  obtain ⟨pl, one, rest, hpl, hone, hcore, hl⟩ := h
  obtain ⟨ch, th, hresth, hheadcase⟩ := PhoneCoreShape_head rest a p n hcore
  have hheadne : ∀ d : Char, (isWSChar d = true ∨ d = '(' ∨ isDigitChar d = true) → d ≠ '+' := by
    intro d hd he
    subst he
    rcases hd with hd | hd | hd
    · exact absurd hd (by decide)
    · exact absurd hd (by decide)
    · exact absurd hd (by decide)
  have E0 : skipPlus l = one ++ rest := by
    rcases hpl with hpl | hpl <;> subst hpl
    · rw [List.nil_append] at hl
      subst hl
      rcases hone with hone | hone <;> subst hone
      · rw [List.nil_append, hresth]
        exact skipPlus_ne ch th (hheadne ch hheadcase)
      · rw [List.cons_append, List.nil_append]
        exact skipPlus_ne '1' _ (by decide)
    · rw [hl]
      simp [skipPlus]
  rw [phoneMatch, E0]
  rcases hone with hone | hone <;> subst hone
  · rw [List.nil_append, hresth]
    simp only
    by_cases h1 : ch = '1'
    · rw [if_pos h1]
      have hfail : phoneCore th = none := by
        cases hx : phoneCore th with
        | none => rfl
        | some x =>
          exfalso
          have h10 := phoneCore_digitCount th x hx
          have hrest10 := PhoneCoreShape_digitCount rest a p n hcore
          rw [hresth, List.countP_cons] at hrest10
          rw [h1] at hrest10
          simp [show isDigitChar '1' = true from by decide] at hrest10
          omega
      rw [hfail]
      simp only
      rw [← hresth]
      exact phoneCore_complete rest a p n hcore
    · rw [if_neg h1]
      rw [← hresth]
      exact phoneCore_complete rest a p n hcore
  · rw [List.cons_append, List.nil_append]
    simp only [if_true]
    rw [phoneCore_complete rest a p n hcore]

end CDog

/-- `std::string::find(sub) != npos`: substring search. -/
def startsWithStr : Str → Str → Bool
  | [], _ => true
  | _ :: _, [] => false
  | a :: as, b :: bs => a == b && startsWithStr as bs

/-- True iff `needle` occurs contiguously inside `hay`. -/
def isSubstr (needle hay : Str) : Bool :=
  startsWithStr needle hay ||
    (match hay with
     | [] => false
     | _ :: t => isSubstr needle t)

/-- A CDog record (Dog.hpp).  Every field but the number is a free-text
string; `updateRequired` is the flag set by the differencing engine. -/
structure CDog where
  number : Nat
  name : Str
  microchip : Str
  age : Str
  sex : Str
  neuter : Str
  status : Str
  location : Str
  howAcquired : Str
  dateAcquired : Str
  primaryContactFName : Str
  primaryContactLName : Str
  surrenderFName : Str
  surrenderLName : Str
  surrenderAddress : Str
  surrenderCity : Str
  surrenderState : Str
  surrenderZipCode : Str
  originatingArea : Str
  adoptionFName : Str
  adoptionLName : Str
  acFName : Str
  acLName : Str
  adoptionAddress : Str
  adoptionCity : Str
  adoptionState : Str
  adoptionZip : Str
  adoptionArea : Str
  adoptioneMail : Str
  adoptionHomePhone : Str
  adoptionWorkPhone : Str
  adoptionCellPhone : Str
  adoptionStatus : Str
  dispositionDate : Str
  updateRequired : Bool
deriving DecidableEq

namespace CDog

/-- Largest possible NGRR dog number (Dog.hpp MAXDOG). -/
def MAXDOG : Nat := 99999

/-- The expected header row of the OLD (2021) Dog Information Report format
(Dog.cpp).  Note the misspelled "Micropchip", preserved from the source. -/
def m_sOldColumnHeaders : String := "Dog Name, Dog Number, Micropchip number, Dog Age, Dog Sex, Dog Breed, Dog Neuter, Dog Status, Dog Location, How Acquired, Date Acquired, Primary Contact Fname, Primary Contact Lname, Surrender Fname, Surrender Lname, Surrender Address, Surrender City, Surrender State, Surrender Zip Code, Originating Area, Adoption Fname, Adoption Lname, AC Fname, AC Lname, Adoption Address, Adoption City, Adoption State, Adoption Zip Code, Adoption Area, Adoption Email, Adoption Home Phone, Adoption Work Phone, Adoption Cell Phone, Adoption Status, Adoption or Disposition Date"

/-- The expected header row of the NEW (2023) format: identical to the old
one except for the "County" column inserted after "Originating Area". -/
def m_sNewColumnHeaders : String := "Dog Name, Dog Number, Micropchip number, Dog Age, Dog Sex, Dog Breed, Dog Neuter, Dog Status, Dog Location, How Acquired, Date Acquired, Primary Contact Fname, Primary Contact Lname, Surrender Fname, Surrender Lname, Surrender Address, Surrender City, Surrender State, Surrender Zip Code, Originating Area, County, Adoption Fname, Adoption Lname, AC Fname, AC Lname, Adoption Address, Adoption City, Adoption State, Adoption Zip Code, Adoption Area, Adoption Email, Adoption Home Phone, Adoption Work Phone, Adoption Cell Phone, Adoption Status, Adoption or Disposition Date"

/-- Number of columns in the old dog data CSV (Dog.hpp). -/
def TOTAL_OLD_COLUMNS : Nat := 35

/-- Number of columns in the new dog data CSV (Dog.hpp). -/
def TOTAL_NEW_COLUMNS : Nat := 36

/-- CDog::FromRow.  Walks the columns in source order: column 5 (Dog Breed)
is skipped in BOTH layouts, and column 20 (County) is skipped only in the
new layout — those are the only `nCol++` lines without an assignment.  The
literal "none" (case-insensitive) in the microchip column is cleared.  The
dog number is the only validated field: it must match `\d+` and lie in
[1, MAXDOG]; otherwise the record is discarded (BADDOGS + false in the
source, `none` here). -/
def FromRow (row : List Str) (fNew : Bool) : Option CDog :=
  let col := fun i => row.getD i ([] : Str)
  let adopBase := if fNew then 21 else 20
  let sDogNumber := col 1
  let chip0 := col 2
  let chip := if strToLower chip0 = ("none").data then [] else chip0
  if sDogNumber = [] ∨ ¬(sDogNumber.all isDigitChar = true) then none
  else
    let n := digitsToNat sDogNumber
    if n = 0 ∨ n > MAXDOG then none
    else some {
      number := n
      name := col 0
      microchip := chip
      age := col 3
      sex := col 4
      neuter := col 6
      status := col 7
      location := col 8
      howAcquired := col 9
      dateAcquired := col 10
      primaryContactFName := col 11
      primaryContactLName := col 12
      surrenderFName := col 13
      surrenderLName := col 14
      surrenderAddress := col 15
      surrenderCity := col 16
      surrenderState := col 17
      surrenderZipCode := col 18
      originatingArea := col 19
      adoptionFName := col adopBase
      adoptionLName := col (adopBase + 1)
      acFName := col (adopBase + 2)
      acLName := col (adopBase + 3)
      adoptionAddress := col (adopBase + 4)
      adoptionCity := col (adopBase + 5)
      adoptionState := col (adopBase + 6)
      adoptionZip := col (adopBase + 7)
      adoptionArea := col (adopBase + 8)
      adoptioneMail := col (adopBase + 9)
      adoptionHomePhone := col (adopBase + 10)
      adoptionWorkPhone := col (adopBase + 11)
      adoptionCellPhone := col (adopBase + 12)
      adoptionStatus := col (adopBase + 13)
      dispositionDate := col (adopBase + 14)
      updateRequired := false }

/-- CDog::HasChip. -/
def HasChip (d : CDog) : Bool := !d.microchip.isEmpty

/-- CDog::IsEuthanized: status CONTAINS "Euthanized" (substring). -/
def IsEuthanized (d : CDog) : Bool := isSubstr (("Euthanized").data) d.status

/-- CDog::IsDied: status contains "Died". -/
def IsDied (d : CDog) : Bool := isSubstr (("Died").data) d.status

/-- CDog::IsDead. -/
def IsDead (d : CDog) : Bool := d.IsEuthanized || d.IsDied

/-- CDog::IsReturned: status contains "Returned". -/
def IsReturned (d : CDog) : Bool := isSubstr (("Returned").data) d.status

/-- CDog::IsAdopted: the adopter first or last name is non-empty; the
status text is deliberately not consulted. -/
def IsAdopted (d : CDog) : Bool := !d.adoptionFName.isEmpty || !d.adoptionLName.isEmpty

/-- CDog::SetUpdateRequired (with the default argument true). -/
def SetUpdateRequired (d : CDog) : CDog := { d with updateRequired := true }

/-- CDog::IsUpdateRequired. -/
def IsUpdateRequired (d : CDog) : Bool := d.updateRequired

end CDog

/-- The regex classes `[[:alpha:]]` and `[[:alnum:]]` (ASCII). -/
def isAlphaChar (c : Char) : Bool :=
  ('a' ≤ c && c ≤ 'z') || ('A' ≤ c && c ≤ 'Z')

def isAlnumChar (c : Char) : Bool := isAlphaChar c || isDigitChar c

namespace CDog

def blankZipMsg : Str := ("zip code cannot be blank").data
def invalidZipMsg : Str := ("invalid zip code").data
def blankEmailMsg : Str := ("email address cannot be blank").data
def invalidEmailMsg : Str := ("invalid email address").data
def invalidStateMsg : Str := ("invalid state").data
def invalidSexMsg : Str := ("invalid sex").data
def invalidSpayNeuterMsg : Str := ("invalid spay/neuter").data
def noDOBMsg : Str := ("has no valid DOB").data
def blankAdoptionMsg : Str := ("adoption information should be blank").data

/-- The zip regex `^\d{5}(\-\d{4})?$`. -/
def zipMatch (l : Str) : Bool :=
  match takeDigits 5 l with
  | none => false
  | some (_, r) =>
    match r with
    | [] => true
    | '-' :: r2 =>
      match takeDigits 4 r2 with
      | some (_, []) => true
      | _ => false
    | _ => false

/-- CDog::VerifyZip: a blank zip is an error (field untouched); a
non-matching zip is cleared; returns (verdict, new field value, messages). -/
def VerifyZip (sZip : Str) : Bool × Str × List Str :=
  if sZip = [] then (false, sZip, [blankZipMsg])
  else if zipMatch sZip then (true, sZip, [])
  else (false, [], [invalidZipMsg])

/-- Character class of the email local part. -/
def isLocalChar (c : Char) : Bool :=
  isAlnumChar c || c == '_' || c == '%' || c == '+' || c == '-' || c == '.'

/-- Character class of the email domain part. -/
def isDomainChar (c : Char) : Bool := isAlnumChar c || c == '.' || c == '-'

/-- The email regex: one-or-more local-part characters, an at-sign,
one-or-more domain characters, a dot, and at least two letters, anchored.
The final letters-only segment cannot contain a dot, so the regex's
backtracking always matches the LAST dot of the domain; this matcher
splits there directly. -/
def emailMatch (l : Str) : Bool :=
  let lp := l.takeWhile (fun c => !(c == '@'))
  match l.dropWhile (fun c => !(c == '@')) with
  | [] => false
  | _ :: dom =>
    let revTld := dom.reverse.takeWhile (fun c => !(c == '.'))
    let tld := revTld.reverse
    if revTld.length = dom.length then false
    else
      !lp.isEmpty && lp.all isLocalChar &&
        !(dom.take (dom.length - revTld.length - 1)).isEmpty &&
        (dom.take (dom.length - revTld.length - 1)).all isDomainChar &&
        decide (2 ≤ tld.length) && tld.all isAlphaChar

/-- CDog::VerifyeMail: a blank value is an error (field untouched); a
non-matching value is cleared. -/
def VerifyeMail (seMail : Str) : Bool × Str × List Str :=
  if seMail = [] then (false, seMail, [blankEmailMsg])
  else if emailMatch seMail then (true, seMail, [])
  else (false, [], [invalidEmailMsg])

/-- The state table of CDog::VerifyState, exactly as in the source: a
single pipe-separated string searched with `std::string::find`. -/
def sStates : String := "|AL|AK|AS|AZ|AR|CA|CO|CT|DE|DC|FM|FL|GA|GU|HI|ID|IL|IN|IA|KS|KY|LA|ME|MH|MD|MA|MI|MN|MS|MO|MT|NE|NV|NH|NJ|NM|NY|NC|ND|MP|OH|OK|OR|PW|PA|PR|RI|SC|SD|TN|TX|UT|VT|VI|VA|WA|WV|WI|WY|"

/-- CDog::VerifyState: a blank state is silently defaulted to "CA"; any
other value must be two characters long and occur in the table string (a
`find` on the pipe-separated list); otherwise the field is cleared. -/
def VerifyState (sState : Str) : Bool × Str × List Str :=
  if sState = [] then (true, ("CA").data, [])
  else if sState.length = 2 ∧ isSubstr sState (sStates.data) = true then (true, sState, [])
  else (false, [], [invalidStateMsg])

/-- CDog::VerifySex: case-insensitively "male" or "female", else the field
is FORCED to "Male" and the check fails. -/
def VerifySex (d : CDog) : CDog × Bool × List Str :=
  let s := strToLower d.sex
  if s = ("female").data ∨ s = ("male").data then (d, true, [])
  else ({ d with sex := ("Male").data }, false, [invalidSexMsg])

/-- CDog::VerifySpayNeuter: case-insensitively "yes" or "no", else the
field is forced to "Yes" and the check fails. -/
def VerifySpayNeuter (d : CDog) : CDog × Bool × List Str :=
  let s := strToLower d.neuter
  if s = ("yes").data ∨ s = ("no").data then (d, true, [])
  else ({ d with neuter := ("Yes").data }, false, [invalidSpayNeuterMsg])

/-- CDog::VerifyAll: sex and spay/neuter checks (with their destructive
defaults), the date-of-birth requirement, then either the adopter-data
checks (email, home phone required, cell/work checked quietly, zip, state —
each normalizing or clearing its field) when an adopter name is present, or
the all-blank check when it is not.  Returns the possibly-mutated record,
the overall AND verdict, and the messages. -/
def VerifyAll (d : CDog) : CDog × Bool × List Str :=
  let r1 := VerifySex d
  let r2 := VerifySpayNeuter r1.1
  let d2 := r2.1
  let dobOk := (ComputeBirthday d2.dateAcquired d2.age).isSome
  let m3 : List Str := if dobOk then [] else [noDOBMsg]
  if ¬ d2.adoptionFName.isEmpty = true ∨ ¬ d2.adoptionLName.isEmpty = true then
    let rE := VerifyeMail d2.adoptioneMail
    let rH := VerifyPhone d2.adoptionHomePhone false
    let rC := VerifyPhone d2.adoptionCellPhone true
    let rW := VerifyPhone d2.adoptionWorkPhone true
    let rZ := VerifyZip d2.adoptionZip
    let rS := VerifyState d2.adoptionState
    let d3 := { d2 with
      adoptioneMail := rE.2.1
      adoptionHomePhone := rH.2.1
      adoptionCellPhone := rC.2.1
      adoptionWorkPhone := rW.2.1
      adoptionZip := rZ.2.1
      adoptionState := rS.2.1 }
    (d3, r1.2.1 && r2.2.1 && dobOk && rE.1 && rH.1 && rZ.1 && rS.1,
      r1.2.2 ++ r2.2.2 ++ m3 ++ rE.2.2 ++ rH.2.2 ++ rC.2.2 ++ rW.2.2 ++ rZ.2.2 ++ rS.2.2)
  else
    let fBlank := d2.adoptioneMail.isEmpty && d2.adoptionFName.isEmpty &&
      d2.adoptionLName.isEmpty && d2.adoptionCellPhone.isEmpty &&
      d2.adoptionHomePhone.isEmpty && d2.adoptionWorkPhone.isEmpty &&
      d2.adoptionAddress.isEmpty && d2.adoptionState.isEmpty && d2.adoptionZip.isEmpty
    let m4 : List Str := if fBlank then [] else [blankAdoptionMsg]
    (d2, r1.2.1 && r2.2.1 && dobOk && fBlank, r1.2.2 ++ r2.2.2 ++ m3 ++ m4)

end CDog

/-- The CDogs collection (Dog.hpp): the owned CDog objects (here an arena
list standing in for the heap) plus the two hash maps, modelled as
association lists from key to arena index — two map entries that share an
index model two pointers to the same object. -/
structure CDogs where
  arena : List CDog
  mapNumber : List (Nat × Nat)
  mapChip : List (Str × Nat)

/-- `unordered_map<uint32_t, CDog*>::find`. -/
def assocFindNat : List (Nat × Nat) → Nat → Option Nat
  | [], _ => none
  | (k, v) :: t, n => if k = n then some v else assocFindNat t n

/-- `unordered_map<string, CDog*>::find`. -/
def assocFindStr : List (Str × Nat) → Str → Option Nat
  | [], _ => none
  | (k, v) :: t, s => if k = s then some v else assocFindStr t s

namespace CDogs

/-- A freshly constructed CDogs collection. -/
def empty : CDogs := ⟨[], [], []⟩

/-- CDogs::Find(uint32_t): look the dog number up in m_mapNumber. -/
def Find (S : CDogs) (nDog : Nat) : Option CDog :=
  match assocFindNat S.mapNumber nDog with
  | some i => S.arena[i]?
  | none => none

/-- CDogs::Find(string): look the microchip up in m_mapChip. -/
def FindChip (S : CDogs) (sChip : Str) : Option CDog :=
  match assocFindStr S.mapChip sChip with
  | some i => S.arena[i]?
  | none => none

def alreadyMsg : Str := ("already in collection").data
def sameChipMsg : Str := ("have the same microchip").data

/-- CDogs::Add: reject a duplicate dog number; reject a non-empty duplicate
microchip; otherwise append the record to the arena (the heap allocation)
and insert it into the number map always and into the chip map iff the chip
is non-empty.  Returns (new collection, verdict, diagnostics). -/
def Add (S : CDogs) (pDog : CDog) : CDogs × Bool × List (Nat × Str) :=
  if (S.Find pDog.number).isSome then (S, false, [(pDog.number, alreadyMsg)])
  else if pDog.microchip ≠ [] ∧ (S.FindChip pDog.microchip).isSome then
    (S, false, [(pDog.number, sameChipMsg)])
  else
    ({ arena := S.arena ++ [pDog]
       mapNumber := (pDog.number, S.arena.length) :: S.mapNumber
       mapChip :=
         if pDog.microchip = [] then S.mapChip
         else (pDog.microchip, S.arena.length) :: S.mapChip },
     true, [])

/-- A snapshot built by a sequence of Add operations on an empty
collection (what CDogs::ReadFile does record by record). -/
def buildSnapshot (ds : List CDog) : CDogs :=
  ds.foldl (fun S d => (S.Add d).1) empty

end CDogs

/-
  The differencing engine: CompareDogs of MicrochipUpdate.cpp, split into
  its seven sequential rule passes.  Each pass iterates the new snapshot's
  m_mapNumber, which (by construction in CDogs::Add) indexes each owned
  record exactly once, and mutates only the record in hand — so each pass
  is modelled as a map over the arena plus the concatenation of the
  per-record diagnostics.  `MSGS` progress lines ("dog ... was acquired")
  are console output, not diagnostics, and are not modelled; `BADDOGS`
  calls are returned as (dog number, message tag) pairs.
-/

def noChipMsg : Str := ("no microchip number recorded").data
def disappearedMsg : Str := ("has microchip but is not found in new dog report").data
def chipChangedMsg : Str := ("microchip number changed").data
def noAdopterMsg : Str := ("but no adopting party is recorded").data
def notAdoptedStatusMsg : Str := ("adopting party is recorded but status is").data
def dispositionMsg : Str := ("disposition date is set but status is Evaluation or Available").data
def familyChangedMsg : Str := ("adopting family changed").data

/-- Pass 1: every old dog absent from the new snapshot is reported iff it
had a microchip. -/
def CompareDogsPass1 (OldDogs NewDogs : CDogs) : List (Nat × Str) :=
  OldDogs.arena.flatMap (fun pOldDog =>
    if NewDogs.Find pOldDog.number = none ∧ pOldDog.HasChip = true then
      [(pOldDog.number, disappearedMsg)]
    else [])

/-- The body of pass 2 for one new-snapshot record, given the old record
found by number (lines 146-167 of MicrochipUpdate.cpp): dead or returned
dogs are skipped; a newly acquired dog must have a chip (report) else is
marked for update; a chip added to a known dog marks it for update; a
changed chip is reported. -/
def CompareDogsPass2Dog (pOldDog : Option CDog) (pNewDog : CDog) : CDog × List (Nat × Str) :=
  if pNewDog.IsDead || pNewDog.IsReturned then (pNewDog, [])
  else
    match pOldDog with
    | none =>
      if pNewDog.microchip = [] then (pNewDog, [(pNewDog.number, noChipMsg)])
      else (pNewDog.SetUpdateRequired, [])
    | some pOld =>
      if pOld.microchip = [] ∧ pNewDog.microchip ≠ [] then (pNewDog.SetUpdateRequired, [])
      else if pOld.microchip ≠ pNewDog.microchip then (pNewDog, [(pNewDog.number, chipChangedMsg)])
      else (pNewDog, [])

/-- Pass 2 over the whole new snapshot. -/
def CompareDogsPass2 (OldDogs NewDogs : CDogs) : CDogs × List (Nat × Str) :=
  ({ NewDogs with
     arena := NewDogs.arena.map (fun d => (CompareDogsPass2Dog (OldDogs.Find d.number) d).1) },
   NewDogs.arena.flatMap (fun d => (CompareDogsPass2Dog (OldDogs.Find d.number) d).2))

/-- Pass 3: status exactly "Adopted" with no adopter name recorded. -/
def CompareDogsPass3 (NewDogs : CDogs) : List (Nat × Str) :=
  NewDogs.arena.flatMap (fun d =>
    if d.status = ("Adopted").data ∧ d.adoptionFName = [] ∧ d.adoptionLName = [] then
      [(d.number, noAdopterMsg)]
    else [])

/-- Pass 4: an adopter name is recorded but the status is neither "Adopted"
nor "Adoption Pending" (dead or returned dogs are ignored). -/
def CompareDogsPass4 (NewDogs : CDogs) : List (Nat × Str) :=
  NewDogs.arena.flatMap (fun d =>
    if (d.adoptionFName ≠ [] ∨ d.adoptionLName ≠ []) ∧
        d.status ≠ ("Adopted").data ∧ d.status ≠ ("Adoption Pending").data ∧
        ¬ (d.IsDead || d.IsReturned) = true then
      [(d.number, notAdoptedStatusMsg)]
    else [])

/-- Pass 5: a non-blank disposition date (other than the "0000-00-00"
placeholder) with status "Evaluation" or "Available". -/
def CompareDogsPass5 (NewDogs : CDogs) : List (Nat × Str) :=
  NewDogs.arena.flatMap (fun d =>
    if d.dispositionDate ≠ [] ∧ d.dispositionDate ≠ ("0000-00-00").data ∧
        (d.status = ("Evaluation").data ∨ d.status = ("Available").data) then
      [(d.number, dispositionMsg)]
    else [])

/-- The body of pass 6 for one new-snapshot record (lines 215-231 of
MicrochipUpdate.cpp): dead, returned or non-adopted dogs are skipped; if
the dog was adopted before and now, a changed adopter first or last name is
reported against the OLD record — and the update flag is NOT set (the
source comment asks "Should an update be required here??!!"); otherwise the
dog was recently adopted and is marked for update. -/
def CompareDogsPass6Dog (pOldDog : Option CDog) (pNewDog : CDog) : CDog × List (Nat × Str) :=
  if pNewDog.IsDead || pNewDog.IsReturned then (pNewDog, [])
  else if pNewDog.IsAdopted = false then (pNewDog, [])
  else
    match pOldDog with
    | some pOld =>
      if pOld.IsAdopted = true then
        if pOld.adoptionFName ≠ pNewDog.adoptionFName ∨ pOld.adoptionLName ≠ pNewDog.adoptionLName then
          (pNewDog, [(pOld.number, familyChangedMsg)])
        else (pNewDog, [])
      else (pNewDog.SetUpdateRequired, [])
    | none => (pNewDog.SetUpdateRequired, [])

/-- Pass 6 over the whole new snapshot. -/
def CompareDogsPass6 (OldDogs NewDogs : CDogs) : CDogs × List (Nat × Str) :=
  ({ NewDogs with
     arena := NewDogs.arena.map (fun d => (CompareDogsPass6Dog (OldDogs.Find d.number) d).1) },
   NewDogs.arena.flatMap (fun d => (CompareDogsPass6Dog (OldDogs.Find d.number) d).2))

/-- The body of pass 7: a dog that was adopted in the old snapshot but is
not adopted now was returned to the organization — mark it for update. -/
def CompareDogsPass7Dog (pOldDog : Option CDog) (pNewDog : CDog) : CDog :=
  match pOldDog with
  | none => pNewDog
  | some pOld =>
    if pOld.IsAdopted = false then pNewDog
    else if pNewDog.IsAdopted = false then pNewDog.SetUpdateRequired
    else pNewDog

/-- Pass 7 over the whole new snapshot. -/
def CompareDogsPass7 (OldDogs NewDogs : CDogs) : CDogs :=
  { NewDogs with
    arena := NewDogs.arena.map (fun d => CompareDogsPass7Dog (OldDogs.Find d.number) d) }

/-- CompareDogs: the seven passes in source order, threading the mutated
new snapshot and accumulating the diagnostics. -/
def CompareDogs (OldDogs NewDogs : CDogs) : CDogs × List (Nat × Str) :=
  let m1 := CompareDogsPass1 OldDogs NewDogs
  let r2 := CompareDogsPass2 OldDogs NewDogs
  let m3 := CompareDogsPass3 r2.1
  let m4 := CompareDogsPass4 r2.1
  let m5 := CompareDogsPass5 r2.1
  let r6 := CompareDogsPass6 OldDogs r2.1
  let r7 := CompareDogsPass7 OldDogs r6.1
  (r7, m1 ++ r2.2 ++ m3 ++ m4 ++ m5 ++ r6.2)

/-- A CChip record (Chip.hpp): the (normalized) microchip of one update
plus the dog it refers to (`m_pDog`; the referent's value at the time the
chip record is built). -/
structure CChip where
  microchip : Str
  dog : CDog
deriving DecidableEq

namespace CChip

/-- CChip::FromDog: copy the dog's chip into the chip record's OWN
m_sMicrochip and verify (and possibly normalize) THAT copy, quietly; on
failure the record is not built (MSGS + false in the source). -/
def FromDog (pDog : CDog) : Option CChip :=
  let r := VerifyMicrochip pDog.microchip false
  if r.1 then some ⟨r.2.1, pDog⟩ else none

end CChip

/-- CChips::Find: look a chip up in the update collection. -/
def CChips.Find (chips : List CChip) (sChip : Str) : Option CChip :=
  chips.find? (fun c => c.microchip == sChip)

def requiresUpdateNoChipMsg : Str := ("requires update but has no microchip!").data
def invalidChipDogMsg : Str := ("has invalid microchip").data
def dupChipMsg : Str := ("duplicate microchip").data

/-- The loop of BuildUpdates (MicrochipUpdate.cpp): walk the dogs; skip
those not needing an update; report a flagged dog without a chip; otherwise
run VerifyAll on the dog (mutating it in place) and build a CChip from it,
adding it to the collection unless its (normalized) chip is already there.
Returns the updated dogs, the chip collection, and the diagnostics. -/
def BuildUpdatesGo : List CDog → List CChip → List CDog × List CChip × List (Nat × Str)
  | [], chips => ([], chips, [])
  | d :: rest, chips =>
    if d.updateRequired = false then
      let r := BuildUpdatesGo rest chips
      (d :: r.1, r.2.1, r.2.2)
    else if d.microchip = [] then
      let r := BuildUpdatesGo rest chips
      (d :: r.1, r.2.1, (d.number, requiresUpdateNoChipMsg) :: r.2.2)
    else
      let d' := (CDog.VerifyAll d).1
      match CChip.FromDog d' with
      | none =>
        let r := BuildUpdatesGo rest chips
        (d' :: r.1, r.2.1, (d'.number, invalidChipDogMsg) :: r.2.2)
      | some c =>
        if (CChips.Find chips c.microchip).isSome then
          let r := BuildUpdatesGo rest chips
          (d' :: r.1, r.2.1, (d'.number, dupChipMsg) :: r.2.2)
        else
          let r := BuildUpdatesGo rest (chips ++ [c])
          (d' :: r.1, r.2.1, r.2.2)

/-- BuildUpdates: run the loop over the whole (new) snapshot, starting from
an emptied chip collection; the snapshot's maps are untouched (the C++
mutates the pointed-to dogs in place and never touches the hash maps). -/
def BuildUpdates (Dogs : CDogs) : CDogs × List CChip × List (Nat × Str) :=
  let r := BuildUpdatesGo Dogs.arena []
  ({ Dogs with arena := r.1 }, r.2.1, r.2.2)

theorem mem_of_getElemOpt {α : Type} (l : List α) (i : Nat) (a : α)
    (h : l[i]? = some a) : a ∈ l := by
  obtain ⟨hi, rfl⟩ := List.getElem?_eq_some.mp h
  exact List.getElem_mem hi

/-- C1: For every old/new snapshot pair and every new-snapshot record that
is neither dead nor returned: if no old record with the same registry
number exists and the record's chip is empty, the no-microchip anomaly is
reported and the record — in particular its updateRequired flag — is left
unchanged by this pass; if no old record exists and the chip is non-empty,
updateRequired is set; and if the old record's chip is empty while the new
record's chip is non-empty, updateRequired is set and this record's pass
emits no anomaly. -/
theorem C1_pass2_acquired_and_chip_added
    (OldDogs NewDogs : CDogs) (i : Nat) (d : CDog)
    (hi : NewDogs.arena[i]? = some d)
    (hdead : d.IsDead = false) (hret : d.IsReturned = false) :
    (OldDogs.Find d.number = none → d.microchip = [] →
      (CompareDogsPass2 OldDogs NewDogs).1.arena[i]? = some d ∧
      (d.number, noChipMsg) ∈ (CompareDogsPass2 OldDogs NewDogs).2) ∧
    (OldDogs.Find d.number = none → d.microchip ≠ [] →
      (CompareDogsPass2 OldDogs NewDogs).1.arena[i]? = some d.SetUpdateRequired) ∧
    (∀ o, OldDogs.Find d.number = some o → o.microchip = [] → d.microchip ≠ [] →
      (CompareDogsPass2 OldDogs NewDogs).1.arena[i]? = some d.SetUpdateRequired ∧
      (CompareDogsPass2Dog (OldDogs.Find d.number) d).2 = []) := by
  have hcond : (d.IsDead || d.IsReturned) = false := by simp [hdead, hret]
  refine ⟨?_, ?_, ?_⟩
  · intro hfind hchip
    constructor
    · simp only [CompareDogsPass2, List.getElem?_map, hi, Option.map_some']
      simp [CompareDogsPass2Dog, hcond, hfind, hchip]
    · refine List.mem_flatMap.mpr ⟨d, mem_of_getElemOpt _ i d hi, ?_⟩
      simp [CompareDogsPass2Dog, hcond, hfind, hchip]
  · intro hfind hchip
    simp only [CompareDogsPass2, List.getElem?_map, hi, Option.map_some']
    simp [CompareDogsPass2Dog, hcond, hfind, hchip]
  · intro o hfind hochip hchip
    constructor
    · simp only [CompareDogsPass2, List.getElem?_map, hi, Option.map_some']
      simp [CompareDogsPass2Dog, hcond, hfind, hochip, hchip]
    · simp [CompareDogsPass2Dog, hcond, hfind, hochip, hchip]

/-- C2: For every new-snapshot record that is adopted, not dead, and not
returned, whose corresponding old record exists, was adopted, and has a
different adopter first or last name: pass 6 reports the adopting-family-
changed anomaly (against the old record) and leaves the record — so in
particular its updateRequired flag — exactly as earlier passes left it. -/
theorem C2_pass6_family_change_reports_without_update
    (OldDogs NewDogs : CDogs) (i : Nat) (d : CDog)
    (hi : NewDogs.arena[i]? = some d)
    (hdead : d.IsDead = false) (hret : d.IsReturned = false)
    (hadopted : d.IsAdopted = true)
    (o : CDog) (ho : OldDogs.Find d.number = some o) (hoad : o.IsAdopted = true)
    (hname : o.adoptionFName ≠ d.adoptionFName ∨ o.adoptionLName ≠ d.adoptionLName) :
    (CompareDogsPass6 OldDogs NewDogs).1.arena[i]? = some d ∧
    (o.number, familyChangedMsg) ∈ (CompareDogsPass6 OldDogs NewDogs).2 := by
  have hcond : (d.IsDead || d.IsReturned) = false := by simp [hdead, hret]
  constructor
  · simp only [CompareDogsPass6, List.getElem?_map, hi, Option.map_some']
    simp [CompareDogsPass6Dog, hcond, hadopted, ho, hoad, hname]
  · refine List.mem_flatMap.mpr ⟨d, mem_of_getElemOpt _ i d hi, ?_⟩
    simp [CompareDogsPass6Dog, hcond, hadopted, ho, hoad, hname]

/-- A dog record with every text field blank (what CDog::Initialize
produces, before FromRow fills the fields in). -/
def emptyDog : CDog :=
  ⟨0, [], [], [], [], [], [], [], [], [], [], [], [], [], [], [], [], [], [],
   [], [], [], [], [], [], [], [], [], [], [], [], [], [], [], false⟩

def oldDog100 : CDog := { emptyDog with number := 100 }

def newDog100 : CDog :=
  { emptyDog with number := 100, microchip := ("981023456789012").data }

def oldSnap100 : CDogs := CDogs.buildSnapshot [oldDog100]

def newSnap100 : CDogs := CDogs.buildSnapshot [newDog100]

theorem C1_witness :
    (CompareDogsPass2 oldSnap100 newSnap100).1.arena[0]?
        = some (CDog.SetUpdateRequired newDog100) ∧
    (CompareDogsPass2Dog (oldSnap100.Find newDog100.number) newDog100).2 = [] :=
  (C1_pass2_acquired_and_chip_added oldSnap100 newSnap100 0 newDog100
      (by decide) (by decide) (by decide)).2.2 oldDog100 (by decide) (by decide) (by decide)

def oldDog200 : CDog :=
  { emptyDog with
    number := 200
    adoptionFName := ("Jane").data
    adoptionLName := ("Doe").data }

def newDog200 : CDog :=
  { emptyDog with
    number := 200
    status := ("Adopted").data
    adoptionFName := ("Mary").data
    adoptionLName := ("Doe").data }

def oldSnap200 : CDogs := CDogs.buildSnapshot [oldDog200]

def newSnap200 : CDogs := CDogs.buildSnapshot [newDog200]

theorem C2_witness :
    (CompareDogsPass6 oldSnap200 newSnap200).1.arena[0]? = some newDog200 ∧
    (200, familyChangedMsg) ∈ (CompareDogsPass6 oldSnap200 newSnap200).2 :=
  C2_pass6_family_change_reports_without_update oldSnap200 newSnap200 0 newDog200
    (by decide) (by decide) (by decide) (by decide) oldDog200
    (by decide) (by decide) (Or.inl (by decide))

namespace CDogs

/-- The two-index invariant of a CDogs collection, following the claim: a
record appears in the chip index iff its microchip is non-empty, and both
indexes resolve a shared record to the same arena slot (the same object). -/
def Inv (S : CDogs) : Prop :=
  (∀ c i, (c, i) ∈ S.mapChip →
    c ≠ [] ∧ ∃ d, S.arena[i]? = some d ∧ d.microchip = c ∧ (d.number, i) ∈ S.mapNumber) ∧
  (∀ n i, (n, i) ∈ S.mapNumber →
    ∃ d, S.arena[i]? = some d ∧ d.number = n ∧
      (d.microchip ≠ [] → (d.microchip, i) ∈ S.mapChip))

theorem Inv_empty : empty.Inv := by
  constructor
  · intro c i hmem
    simp [empty] at hmem
  · intro n i hmem
    simp [empty] at hmem

theorem Inv_add (S : CDogs) (d : CDog) (h : S.Inv) : (S.Add d).1.Inv := by
  by_cases h1 : (S.Find d.number).isSome
  · rw [Add, if_pos h1]
    exact h
  · by_cases h2 : d.microchip ≠ [] ∧ (S.FindChip d.microchip).isSome
    · rw [Add, if_neg h1, if_pos h2]
      exact h
    · rw [Add, if_neg h1, if_neg h2]
      obtain ⟨hcpart, hnpart⟩ := h
      have harena : ∀ (i : Nat) (d0 : CDog), S.arena[i]? = some d0 →
          (S.arena ++ [d])[i]? = some d0 := by
        intro i d0 ha
        obtain ⟨hlt, _⟩ := List.getElem?_eq_some.mp ha
        rw [List.getElem?_append_left hlt]
        exact ha
      have hnew : (S.arena ++ [d])[S.arena.length]? = some d :=
        List.getElem?_concat_length S.arena d
      constructor
      · intro c i hmem
        simp only at hmem
        by_cases hm : d.microchip = []
        · rw [if_pos hm] at hmem
          obtain ⟨hcne, d0, ha, hmc, hnum⟩ := hcpart c i hmem
          exact ⟨hcne, d0, harena i d0 ha, hmc, List.mem_cons_of_mem _ hnum⟩
        · rw [if_neg hm] at hmem
          rcases List.mem_cons.mp hmem with hhead | htail
          · obtain ⟨e1, e2⟩ : c = d.microchip ∧ i = S.arena.length := by
              constructor <;> injection hhead <;> simp_all
            subst e1; subst e2
            exact ⟨hm, d, hnew, rfl, List.mem_cons_self _ _⟩
          · obtain ⟨hcne, d0, ha, hmc, hnum⟩ := hcpart c i htail
            exact ⟨hcne, d0, harena i d0 ha, hmc, List.mem_cons_of_mem _ hnum⟩
      · intro n i hmem
        simp only at hmem
        rcases List.mem_cons.mp hmem with hhead | htail
        · obtain ⟨e1, e2⟩ : n = d.number ∧ i = S.arena.length := by
            constructor <;> injection hhead <;> simp_all
          subst e1; subst e2
          refine ⟨d, hnew, rfl, ?_⟩
          intro hdm
          rw [if_neg hdm]
          exact List.mem_cons_self _ _
        · obtain ⟨d0, ha, hnum, hchip⟩ := hnpart n i htail
          refine ⟨d0, harena i d0 ha, hnum, ?_⟩
          intro hdm
          by_cases hm : d.microchip = []
          · rw [if_pos hm]
            exact hchip hdm
          · rw [if_neg hm]
            exact List.mem_cons_of_mem _ (hchip hdm)

theorem Inv_buildSnapshot (ds : List CDog) : (buildSnapshot ds).Inv := by
  suffices h : ∀ S : CDogs, S.Inv → (ds.foldl (fun S d => (S.Add d).1) S).Inv by
    exact h empty Inv_empty
  induction ds with
  | nil => intro S hS; exact hS
  | cons d rest ih =>
    intro S hS
    exact ih ((S.Add d).1) (Inv_add S d hS)

end CDogs

/-- C3: For every sequence of add operations on a registry snapshot, the
resulting collection satisfies the two-index invariant (a record is in the
chip index iff its chip was non-empty at insertion, and both indexes
resolve a shared record to the same arena object); and an add whose dog
number, or whose non-empty microchip, duplicates an existing entry is
rejected with a diagnostic and leaves the collection — both indexes and the
arena — unchanged. -/
theorem C3_snapshot_double_index
    (ds : List CDog) :
    (CDogs.buildSnapshot ds).Inv ∧
    (∀ (S : CDogs) (d : CDog),
      ((S.Find d.number).isSome ∨ (d.microchip ≠ [] ∧ (S.FindChip d.microchip).isSome)) →
      (S.Add d).1 = S ∧ (S.Add d).2.1 = false ∧ (S.Add d).2.2 ≠ []) := by
  refine ⟨CDogs.Inv_buildSnapshot ds, ?_⟩
  intro S d hdup
  by_cases h1 : (S.Find d.number).isSome
  · rw [CDogs.Add, if_pos h1]
    exact ⟨rfl, rfl, by simp⟩
  · rcases hdup with hdup | hdup
    · exact absurd hdup h1
    · rw [CDogs.Add, if_neg h1, if_pos hdup]
      exact ⟨rfl, rfl, by simp⟩

theorem C3_witness :
    ((CDogs.buildSnapshot [newDog100]).Add newDog100).1 = CDogs.buildSnapshot [newDog100] ∧
    ((CDogs.buildSnapshot [newDog100]).Add newDog100).2.1 = false ∧
    ((CDogs.buildSnapshot [newDog100]).Add newDog100).2.2 ≠ [] :=
  (C3_snapshot_double_index [newDog100]).2 (CDogs.buildSnapshot [newDog100]) newDog100
    (Or.inl (by decide))

namespace CChip

/-- The acceptance condition of the claim for microchip verification:
15 decimal digits beginning with 9; or "202" followed by 12 decimal digits;
or a 10-character hexadecimal string; or a legacy 9-digit number written as
three groups of three digits with an optional space or asterisk between
groups. -/
def ChipSpecAccepts (l : Str) : Prop :=
  (∃ t, l = '9' :: t ∧ l.length = 15 ∧ ∀ c ∈ l, isDigitChar c = true) ∨
  (∃ t, l = '2' :: '0' :: '2' :: t ∧ l.length = 15 ∧ ∀ c ∈ t, isDigitChar c = true) ∨
  (l.length = 10 ∧ ∀ c ∈ l, isXDigitChar c = true) ∨
  (∃ g1 s1 g2 s2 g3, ChipLegacyDecomp l g1 s1 g2 s2 g3)

theorem ChipSpecAccepts_branches (l : Str)
    (hiso : isISO l = false) (hpump : isPumpkin l = false) (hfdxa : isFDXA l = false)
    (hleg : legacyMatch l = none) : ¬ ChipSpecAccepts l := by
  rintro (ha | hb | hc | ⟨g1, s1, g2, s2, g3, hd⟩)
  · rw [(isISO_spec l).mpr ha] at hiso
    simp at hiso
  · obtain ⟨t, h1, h2, h3⟩ := hb
    rw [(isPumpkin_spec l).mpr ⟨t, h1, h2, h3⟩] at hpump
    simp at hpump
  · rw [(isFDXA_spec l).mpr hc] at hfdxa
    simp at hfdxa
  · rw [legacyMatch_complete l g1 s1 g2 s2 g3 hd] at hleg
    simp at hleg

end CChip

/-- C4: Microchip verification succeeds exactly for: 15 decimal digits
beginning with 9; "202" followed by 12 decimal digits; any 10-character
hexadecimal string; or 9 decimal digits optionally written as three groups
of three with a space or asterisk between groups — in which legacy case the
value is rewritten with the separators removed (and in the other accepted
cases it is unchanged); every other value fails and the field is left
unmodified. -/
theorem C4_verify_microchip (l : Str) (fm : Bool) :
    ((CChip.VerifyMicrochip l fm).1 = true ↔ CChip.ChipSpecAccepts l) ∧
    (∀ g1 s1 g2 s2 g3, CChip.ChipLegacyDecomp l g1 s1 g2 s2 g3 →
      (CChip.VerifyMicrochip l fm).2.1 = g1 ++ g2 ++ g3) ∧
    ((CChip.VerifyMicrochip l fm).1 = true →
      (¬ ∃ g1 s1 g2 s2 g3, CChip.ChipLegacyDecomp l g1 s1 g2 s2 g3) →
      (CChip.VerifyMicrochip l fm).2.1 = l) ∧
    ((CChip.VerifyMicrochip l fm).1 = false → (CChip.VerifyMicrochip l fm).2.1 = l) := by
  by_cases hemp : l = []
  · subst hemp
    have hV : CChip.VerifyMicrochip [] fm = (false, [], [CChip.blankChipMsg]) := rfl
    refine ⟨?_, ?_, ?_, ?_⟩
    · rw [hV]
      simp only [Bool.false_eq_true, false_iff]
      rintro (⟨t, ht, _⟩ | ⟨t, ht, _⟩ | ⟨h10, _⟩ | ⟨g1, s1, g2, s2, g3, hd⟩)
      · simp at ht
      · simp at ht
      · simp at h10
      · obtain ⟨hlen, _, _⟩ := CChip.ChipLegacyDecomp_length [] g1 s1 g2 s2 g3 hd
        simp at hlen
        omega
    · intro g1 s1 g2 s2 g3 hd
      obtain ⟨hlen, _, _⟩ := CChip.ChipLegacyDecomp_length [] g1 s1 g2 s2 g3 hd
      simp at hlen
      omega
    · rw [hV]
      intro h
      simp at h
    · rw [hV]
      intro _
      rfl
  · by_cases hiso : CChip.isISO l = true
    · have hV : CChip.VerifyMicrochip l fm = (true, l, []) := by
        rw [CChip.VerifyMicrochip, if_neg hemp, if_pos hiso]
      refine ⟨?_, ?_, ?_, ?_⟩
      · rw [hV]
        simp only [true_iff]
        exact Or.inl ((CChip.isISO_spec l).mp hiso)
      · intro g1 s1 g2 s2 g3 hd
        rw [CChip.ChipLegacyDecomp_not_ISO l g1 s1 g2 s2 g3 hd] at hiso
        simp at hiso
      · intro _ _
        rw [hV]
      · intro h
        rw [hV] at h
        simp at h
    · by_cases hpump : CChip.isPumpkin l = true
      · have hV : CChip.VerifyMicrochip l fm = (true, l, []) := by
          rw [CChip.VerifyMicrochip, if_neg hemp, if_neg hiso, if_pos hpump]
        refine ⟨?_, ?_, ?_, ?_⟩
        · rw [hV]
          simp only [true_iff]
          exact Or.inr (Or.inl ((CChip.isPumpkin_spec l).mp hpump))
        · intro g1 s1 g2 s2 g3 hd
          rw [CChip.ChipLegacyDecomp_not_Pumpkin l g1 s1 g2 s2 g3 hd] at hpump
          simp at hpump
        · intro _ _
          rw [hV]
        · intro h
          rw [hV] at h
          simp at h
      · by_cases hfdxa : CChip.isFDXA l = true
        · have hV : CChip.VerifyMicrochip l fm = (true, l, []) := by
            rw [CChip.VerifyMicrochip, if_neg hemp, if_neg hiso, if_neg hpump, if_pos hfdxa]
          refine ⟨?_, ?_, ?_, ?_⟩
          · rw [hV]
            simp only [true_iff]
            exact Or.inr (Or.inr (Or.inl ((CChip.isFDXA_spec l).mp hfdxa)))
          · intro g1 s1 g2 s2 g3 hd
            rw [CChip.ChipLegacyDecomp_not_FDXA l g1 s1 g2 s2 g3 hd] at hfdxa
            simp at hfdxa
          · intro _ _
            rw [hV]
          · intro h
            rw [hV] at h
            simp at h
        · cases hleg : CChip.legacyMatch l with
          | some t =>
            have hV : CChip.VerifyMicrochip l fm = (true, t, []) := by
              rw [CChip.VerifyMicrochip, if_neg hemp, if_neg hiso, if_neg hpump, if_neg hfdxa,
                hleg]
            obtain ⟨g1, s1, g2, s2, g3, hd, ht⟩ := CChip.legacyMatch_sound l t hleg
            refine ⟨?_, ?_, ?_, ?_⟩
            · rw [hV]
              simp only [true_iff]
              exact Or.inr (Or.inr (Or.inr ⟨g1, s1, g2, s2, g3, hd⟩))
            · intro g1' s1' g2' s2' g3' hd'
              have := CChip.legacyMatch_complete l g1' s1' g2' s2' g3' hd'
              rw [hleg] at this
              simp at this
              rw [hV]
              show t = g1' ++ g2' ++ g3'
              rw [List.append_assoc]
              exact this
            · intro _ hno
              exact absurd ⟨g1, s1, g2, s2, g3, hd⟩ hno
            · intro h
              rw [hV] at h
              simp at h
          | none =>
            have hV : CChip.VerifyMicrochip l fm
                = (false, l, if fm then [CChip.invalidChipMsg] else []) := by
              rw [CChip.VerifyMicrochip, if_neg hemp, if_neg hiso, if_neg hpump, if_neg hfdxa,
                hleg]
            have hno := CChip.ChipSpecAccepts_branches l
              (Bool.eq_false_iff.mpr hiso) (Bool.eq_false_iff.mpr hpump)
              (Bool.eq_false_iff.mpr hfdxa) hleg
            refine ⟨?_, ?_, ?_, ?_⟩
            · rw [hV]
              simp only [Bool.false_eq_true, false_iff]
              exact hno
            · intro g1 s1 g2 s2 g3 hd
              exact absurd (Or.inr (Or.inr (Or.inr ⟨g1, s1, g2, s2, g3, hd⟩))) hno
            · intro h
              rw [hV] at h
              simp at h
            · intro _
              rw [hV]

theorem C4_witness :
    (CChip.VerifyMicrochip (("123 456 789").data) true).2.1 = ("123456789").data ∧
    (CChip.VerifyMicrochip (("981023456789012").data) true).1 = true ∧
    (CChip.VerifyMicrochip (("12345").data) true).1 = false ∧
    (CChip.VerifyMicrochip (("12345").data) true).2.1 = ("12345").data := by
  refine ⟨?_, by decide, by decide, by decide⟩
  exact (C4_verify_microchip (("123 456 789").data) true).2.1
    (("123").data) [' '] (("456").data) [' '] (("789").data)
    ⟨by decide, by decide, by decide, by decide, by decide, by decide,
     by decide, by decide, by decide⟩

/-- C5 (amended): parsing a formatted line returns the original fields with
each passed through the per-field cleanup (trim, unwrap the spreadsheet
="..." form, trim) whenever the formatted line is non-empty; in particular,
for a non-empty single field that the cleanup leaves unchanged, the
format-level round trip is stable. -/
theorem C5_roundtrip_with_cleanup :
    (∀ fields : List Str, CCSVRow.Format fields ≠ [] →
      CCSVRow.Parse (CCSVRow.Format fields) = fields.map CCSVRow.CleanColumn) ∧
    (∀ f : Str, f ≠ [] → CCSVRow.CleanColumn f = f →
      CCSVRow.Format (CCSVRow.Parse (CCSVRow.Format [f])) = CCSVRow.Format [f]) := by
  refine ⟨fun fields h => CCSVRow.Parse_Format fields h, ?_⟩
  intro f hne hclean
  have hfmt : CCSVRow.Format [f] ≠ [] := by
    have := CCSVRow.FormatField_ne_nil f hne
    simpa [CCSVRow.Format, CCSVRow.FormatRest] using this
  rw [CCSVRow.Parse_Format [f] hfmt]
  simp [hclean]

/-- C5 counterexample: the field "=1" contains neither a comma nor a quote,
yet parse(format(["=1"])) = ["1"] ≠ ["=1"] (the parser unwraps the leading
equals sign), so neither the field-level nor the format-level round-trip
law of the claim holds. -/
theorem C5_counterexample :
    CCSVRow.Parse (CCSVRow.Format [['=', '1']]) ≠ [['=', '1']] ∧
    CCSVRow.NeedsQuotes ['=', '1'] = false ∧
    CCSVRow.Format (CCSVRow.Parse (CCSVRow.Format [['=', '1']]))
      ≠ CCSVRow.Format [['=', '1']] := by decide

theorem C5_witness :
    CCSVRow.Parse (CCSVRow.Format [("ab").data, ("c,d").data])
      = [("ab").data, ("c,d").data] ∧
    CCSVRow.Format (CCSVRow.Parse (CCSVRow.Format [("ab").data]))
      = CCSVRow.Format [("ab").data] := by
  constructor
  · rw [C5_roundtrip_with_cleanup.1 [("ab").data, ("c,d").data] (by decide)]
    decide
  · exact C5_roundtrip_with_cleanup.2 (("ab").data) (by decide) (by decide)

namespace CCSVFile

theorem Read_cons (first : Str) (rest : List Str) (hdr : Str) (h : hdr ≠ []) :
    Read (first :: rest) hdr =
      (rest.map CCSVRow.Parse,
        (if CCSVRow.Verify (CCSVRow.Parse first) (CCSVRow.Parse hdr) then []
         else [headerMismatchMsg])
          ++ colCheck (CCSVRow.Parse first).length 2 (rest.map CCSVRow.Parse)) := by
  rw [Read.eq_def, if_neg h]

end CCSVFile

/-- C6 (amended): when no header check is requested, every line becomes a
row and no column-count check is ever applied (the required count stays 0);
when a header is given, the first line's parsed field count becomes the
required count, a header mismatch is reported as a message (and reading
continues), and every subsequent row whose field count differs is reported
as a message while the row is still returned — neither condition aborts
the run. -/
theorem C6_csv_read_checks :
    (∀ lines : List Str, CCSVFile.Read lines [] = (lines.map CCSVRow.Parse, [])) ∧
    (∀ (first : Str) (rest : List Str) (hdr : Str), hdr ≠ [] →
      (CCSVFile.Read (first :: rest) hdr).1 = rest.map CCSVRow.Parse ∧
      (CCSVRow.Parse first ≠ CCSVRow.Parse hdr →
        CCSVFile.headerMismatchMsg ∈ (CCSVFile.Read (first :: rest) hdr).2) ∧
      (∀ (i : Nat) (r : List Str), (rest.map CCSVRow.Parse)[i]? = some r →
        (CCSVRow.Parse first).length > 0 → r.length ≠ (CCSVRow.Parse first).length →
        CCSVFile.wrongColumnsMsg (2 + i) ∈ (CCSVFile.Read (first :: rest) hdr).2)) := by
  constructor
  · intro lines
    rw [CCSVFile.Read.eq_def, if_pos rfl, CCSVFile.colCheck_zero]
  · intro first rest hdr hne
    refine ⟨?_, ?_, ?_⟩
    · rw [CCSVFile.Read_cons first rest hdr hne]
    · intro hmm
      rw [CCSVFile.Read_cons first rest hdr hne]
      have hv : CCSVRow.Verify (CCSVRow.Parse first) (CCSVRow.Parse hdr) = false := by
        simp [CCSVRow.Verify]
        exact hmm
      rw [if_neg (by simp [hv])]
      simp
    · intro i r hr hpos hlen
      rw [CCSVFile.Read_cons first rest hdr hne]
      simp only [List.mem_append]
      right
      exact CCSVFile.colCheck_mem (rest.map CCSVRow.Parse) (CCSVRow.Parse first).length 2 i r
        hr hpos hlen

/-- C6 counterexample: with expected header "a,b,c", the file whose lines
are "a,b" / "x" / "y,z,w" is read to completion — both data rows are
returned, including the one with the wrong column count — and the header
mismatch and both column-count mismatches (the required count being 2, the
field count of the file's FIRST LINE, not of the expected header) are mere
messages; and with no header requested, rows of differing field counts
produce no message at all.  Nothing aborts. -/
theorem C6_counterexample :
    (CCSVFile.Read [("a,b").data, ("x").data, ("y,z,w").data] (("a,b,c").data)).1
      = [[("x").data], [("y").data, ("z").data, ("w").data]] ∧
    (CCSVFile.Read [("a,b").data, ("x").data, ("y,z,w").data] (("a,b,c").data)).2
      = [CCSVFile.headerMismatchMsg, CCSVFile.wrongColumnsMsg 2, CCSVFile.wrongColumnsMsg 3] ∧
    CCSVFile.Read [("a,b").data, ("x").data] []
      = ([[("a").data, ("b").data], [("x").data]], []) := by decide

theorem C6_witness :
    (CCSVFile.Read [("a,b").data, ("x").data] (("a,b,c").data)).1 = [[("x").data]] ∧
    CCSVFile.headerMismatchMsg ∈ (CCSVFile.Read [("a,b").data, ("x").data] (("a,b,c").data)).2 ∧
    CCSVFile.wrongColumnsMsg 2 ∈ (CCSVFile.Read [("a,b").data, ("x").data] (("a,b,c").data)).2 := by
  have h := C6_csv_read_checks.2 (("a,b").data) [("x").data] (("a,b,c").data) (by decide)
  exact ⟨h.1, h.2.1 (by decide), h.2.2 0 [("x").data] (by decide) (by decide) (by decide)⟩

/-- C7 counterexample: for age "3 years 2 months" and acquisition date
"2020-05-15" the computation does NOT return "05/01/2017". -/
theorem C7_counterexample :
    CDog.ComputeBirthday (("2020-05-15").data) (("3 years 2 months").data)
      ≠ some (("05/01/2017").data) := by decide

/-- C7 (amended): for age "3 years 2 months" and acquisition date
"2020-05-15", the computation succeeds and returns "03/15/2017" — in
MM/DD/YYYY order: month = 5 − 2 = 3 and year = 2020 − 3 = 2017 from the
borrow-free subtraction, and the day is the acquisition day 15 (the code
passes the acquired day to FormatDate even though its own comment claims
the day is always "01"). -/
theorem C7_birthday_example :
    CDog.ComputeBirthday (("2020-05-15").data) (("3 years 2 months").data)
      = some (("03/15/2017").data) := by decide

namespace CDog

/-- The separator set as the claim words it: space, hyphen, slash,
asterisk, comma, period and equals — allegedly allowed in BOTH gaps. -/
def isClaimSep (c : Char) : Bool :=
  c == ' ' || c == '-' || c == '/' || c == '*' || c == ',' || c == '.' || c == '='

/-- The phone shape exactly as the claim describes it: an optional leading
"+1", an optionally parenthesized 3-digit area code, then a 3-digit prefix
and a 4-digit line number, with arbitrarily repeated separators drawn from
the single class above in both gaps. -/
def ClaimPhoneShape (l a p n : Str) : Prop :=
  ∃ pre wrapped s1 s2,
    (pre = [] ∨ pre = ['+', '1']) ∧
    (wrapped = a ∨ wrapped = '(' :: (a ++ [')'])) ∧
    (∀ c ∈ s1, isClaimSep c = true) ∧ (∀ c ∈ s2, isClaimSep c = true) ∧
    a.length = 3 ∧ p.length = 3 ∧ n.length = 4 ∧
    (∀ c ∈ a, isDigitChar c = true) ∧ (∀ c ∈ p, isDigitChar c = true) ∧
    (∀ c ∈ n, isDigitChar c = true) ∧
    l = pre ++ wrapped ++ s1 ++ p ++ s2 ++ n

end CDog

/-- C8 counterexample: "408=5551212" fits the claim's shape (equals sign
between area code and prefix), yet verification fails, clears the field
and reports it — the code's first separator class has no equals sign (and,
dually, its second class has no slash). -/
theorem C8_counterexample :
    CDog.ClaimPhoneShape (("408=5551212").data) (("408").data) (("555").data) (("1212").data) ∧
    CDog.VerifyPhone (("408=5551212").data) false
      = (false, [], [CDog.invalidPhoneMsg]) := by
  refine ⟨⟨[], ("408").data, ['='], [], Or.inl rfl, Or.inl rfl, by decide, by decide,
    by decide, by decide, by decide, by decide, by decide, by decide, by decide⟩, by decide⟩

/-- C8 (amended): for every non-empty phone value other than the literal
"none", verification succeeds iff the value matches the code's actual
pattern — optional plus, optional one, optional single whitespace,
optionally (and possibly unpaired) parenthesized 3-digit area code, then
separators from the class without equals, a 3-digit prefix, separators
from the class without slash, and a 4-digit line number; on success the
field becomes the 10 concatenated digits, on failure it is cleared and
reported. -/
theorem C8_verify_phone (sPhone : Str) (hne : sPhone ≠ [])
    (hnone : sPhone ≠ ("none").data) :
    (∀ a p n, CDog.PhoneShape sPhone a p n →
      CDog.VerifyPhone sPhone false = (true, a ++ p ++ n, [])) ∧
    ((¬ ∃ a p n, CDog.PhoneShape sPhone a p n) →
      CDog.VerifyPhone sPhone false = (false, [], [CDog.invalidPhoneMsg])) := by
  have hcond : ¬ (sPhone = [] ∨ sPhone = ("none").data) := by
    rintro (h | h)
    · exact hne h
    · exact hnone h
  constructor
  · intro a p n h
    have hm := CDog.phoneMatch_complete sPhone a p n h
    rw [CDog.VerifyPhone.eq_def, if_neg hcond, hm]
  · intro hno
    cases hm : CDog.phoneMatch sPhone with
    | none =>
      rw [CDog.VerifyPhone.eq_def, if_neg hcond, hm]
      simp
    | some x =>
      obtain ⟨a, p, n⟩ := x
      exact absurd ⟨a, p, n, CDog.phoneMatch_sound sPhone a p n hm⟩ hno

theorem C8_witness :
    CDog.VerifyPhone (("+1 (408) 555-1212").data) false
      = (true, ("4085551212").data, []) := by
  have h := C8_verify_phone (("+1 (408) 555-1212").data) (by decide) (by decide)
  exact h.1 (("408").data) (("555").data) (("1212").data)
    ⟨['+'], ['1'], (" (408) 555-1212").data, Or.inr rfl, Or.inr rfl,
      ⟨[' '], ['('], [')'], [' '], ['-'], Or.inr ⟨' ', rfl, by decide⟩, Or.inr rfl,
        Or.inr rfl, by decide, by decide, by decide, by decide, by decide, by decide,
        by decide, by decide, by decide⟩, by decide⟩

/-- A marker column: the two decimal digits of its own index, so that each
column of a demonstration row is distinct and identifies its position. -/
def mkCol (i : Nat) : Str := [Char.ofNat (48 + i / 10), Char.ofNat (48 + i % 10)]

def row35 : List Str := (List.range 35).map mkCol

def row36 : List Str := (List.range 36).map mkCol

def d7Rex : CDog :=
  ⟨7, ("Rex").data, [], [], [], [], [], [], [], [], [], [], [], [], [], [], [], [],
   [], [], [], [], [], [], [], [], [], [], [], [], [], [], [], [], false⟩

/-- C9 counterexample: BOTH layouts carry a breed column (both header
constants contain "Dog Breed", and changing column 5 of an OLD-layout row
does not change the resulting record — the old layout skips it just as the
new one does), and BOTH layouts put the adopter-name columns BEFORE the
area-contact-name columns (old: adopter first name at column 20, area
contact first name at 22; new: 21 and 23) — the layouts differ only in the
presence of the county column. -/
theorem C9_counterexample :
    (isSubstr (("Dog Breed").data) ((CDog.m_sOldColumnHeaders).data)
      && isSubstr (("Dog Breed").data) ((CDog.m_sNewColumnHeaders).data)) = true ∧
    CDog.FromRow row35 false = CDog.FromRow (row35.set 5 (("XX").data)) false ∧
    (CDog.FromRow row35 false).map (fun d => (d.adoptionFName, d.acFName))
      = some ((("20").data, ("22").data)) ∧
    (CDog.FromRow row36 true).map (fun d => (d.adoptionFName, d.acFName))
      = some ((("21").data, ("23").data)) := by decide

/-- C9 (amended): the two layouts differ ONLY in the county column — the
new layout is the old one with one extra column inserted at position 20,
and a new-layout row maps to exactly the record of the corresponding
old-layout row with that column removed (both skip the breed column 5, and
both read the adopter names before the area-contact names); each semantic
field is taken from its layout's fixed column position, listed here for
representative fields of both layouts. -/
theorem C9_fromrow_layouts :
    (∀ (pre post : List Str) (c : Str), pre.length = 20 →
      CDog.FromRow (pre ++ c :: post) true = CDog.FromRow (pre ++ post) false) ∧
    (∀ (row : List Str) (d : CDog), CDog.FromRow row false = some d →
      d.name = row.getD 0 [] ∧ d.age = row.getD 3 [] ∧ d.sex = row.getD 4 [] ∧
      d.neuter = row.getD 6 [] ∧ d.status = row.getD 7 [] ∧
      d.originatingArea = row.getD 19 [] ∧ d.adoptionFName = row.getD 20 [] ∧
      d.adoptionLName = row.getD 21 [] ∧ d.acFName = row.getD 22 [] ∧
      d.acLName = row.getD 23 [] ∧ d.dispositionDate = row.getD 34 []) ∧
    (∀ (row : List Str) (d : CDog), CDog.FromRow row true = some d →
      d.sex = row.getD 4 [] ∧ d.neuter = row.getD 6 [] ∧
      d.originatingArea = row.getD 19 [] ∧ d.adoptionFName = row.getD 21 [] ∧
      d.adoptionLName = row.getD 22 [] ∧ d.acFName = row.getD 23 [] ∧
      d.acLName = row.getD 24 [] ∧ d.dispositionDate = row.getD 35 []) := by
  refine ⟨?_, ?_, ?_⟩
  · intro pre post c hpre
    have hlow : ∀ i : Nat, i < 20 →
        (pre ++ c :: post).getD i [] = (pre ++ post).getD i [] := by
      intro i hi
      simp only [List.getD_eq_getElem?_getD]
      rw [List.getElem?_append_left (show i < pre.length by omega),
          List.getElem?_append_left (show i < pre.length by omega)]
    have hhigh : ∀ k : Nat,
        (pre ++ c :: post).getD (21 + k) [] = (pre ++ post).getD (20 + k) [] := by
      intro k
      simp only [List.getD_eq_getElem?_getD]
      rw [List.getElem?_append_right (show pre.length ≤ 21 + k by omega),
          List.getElem?_append_right (show pre.length ≤ 20 + k by omega)]
      have e1 : 21 + k - pre.length = (20 + k - pre.length) + 1 := by omega
      rw [e1, List.getElem?_cons_succ]
    have hbare : (pre ++ c :: post).getD 21 [] = (pre ++ post).getD 20 [] := hhigh 0
    simp only [CDog.FromRow, if_true, if_false]
    rw [hlow 0 (by omega), hlow 1 (by omega), hlow 2 (by omega), hlow 3 (by omega),
        hlow 4 (by omega), hlow 6 (by omega), hlow 7 (by omega), hlow 8 (by omega),
        hlow 9 (by omega), hlow 10 (by omega), hlow 11 (by omega), hlow 12 (by omega),
        hlow 13 (by omega), hlow 14 (by omega), hlow 15 (by omega), hlow 16 (by omega),
        hlow 17 (by omega), hlow 18 (by omega), hlow 19 (by omega), hbare, hhigh 1,
        hhigh 2, hhigh 3, hhigh 4, hhigh 5, hhigh 6, hhigh 7, hhigh 8, hhigh 9,
        hhigh 10, hhigh 11, hhigh 12, hhigh 13, hhigh 14]
    rfl
  · intro row d h
    simp only [CDog.FromRow] at h
    split at h
    · exact Option.noConfusion h
    · split at h
      · exact Option.noConfusion h
      · injection h with h2
        subst h2
        exact ⟨rfl, rfl, rfl, rfl, rfl, rfl, rfl, rfl, rfl, rfl, rfl⟩
  · intro row d h
    simp only [CDog.FromRow] at h
    split at h
    · exact Option.noConfusion h
    · split at h
      · exact Option.noConfusion h
      · injection h with h2
        subst h2
        exact ⟨rfl, rfl, rfl, rfl, rfl, rfl, rfl, rfl⟩

theorem C9_witness :
    CDog.FromRow ((List.range 20).map mkCol ++ (("XX").data) :: (List.range 15).map mkCol) true
      = CDog.FromRow ((List.range 20).map mkCol ++ (List.range 15).map mkCol) false ∧
    CDog.FromRow [("Rex").data, ("7").data] false = some d7Rex ∧
    d7Rex.adoptionFName = [] ∧ d7Rex.acFName = [] := by
  refine ⟨C9_fromrow_layouts.1 ((List.range 20).map mkCol) ((List.range 15).map mkCol)
    (("XX").data) (by decide), by decide, ?_, ?_⟩
  · have h := C9_fromrow_layouts.2.1 [("Rex").data, ("7").data] d7Rex (by decide)
    simpa using h.2.2.2.2.2.2.1
  · have h := C9_fromrow_layouts.2.1 [("Rex").data, ("7").data] d7Rex (by decide)
    simpa using h.2.2.2.2.2.2.2.2.1

namespace CDog

theorem VerifySex_microchip (d : CDog) : (VerifySex d).1.microchip = d.microchip := by
  simp only [VerifySex]
  split <;> rfl

theorem VerifySpayNeuter_microchip (d : CDog) :
    (VerifySpayNeuter d).1.microchip = d.microchip := by
  simp only [VerifySpayNeuter]
  split <;> rfl

/-- CDog::VerifyAll touches the sex, neuter and adoption fields but never
the microchip member. -/
theorem VerifyAll_microchip (d : CDog) : (VerifyAll d).1.microchip = d.microchip := by
  simp only [VerifyAll]
  split <;>
    exact (VerifySpayNeuter_microchip (VerifySex d).1).trans (VerifySex_microchip d)

end CDog

/-- The microchip column of the dogs walked by the BuildUpdates loop is
untouched: each dog is either kept as-is or replaced by its VerifyAll
image, which has the same microchip. -/
theorem BuildUpdatesGo_microchips (ds : List CDog) : ∀ chips : List CChip,
    (BuildUpdatesGo ds chips).1.map (fun d => d.microchip)
      = ds.map (fun d => d.microchip) := by
  induction ds with
  | nil => intro chips; rfl
  | cons d rest ih =>
    intro chips
    simp only [BuildUpdatesGo]
    split
    · simp [ih]
    · split
      · simp [ih]
      · cases hm : CChip.FromDog (CDog.VerifyAll d).1 with
        | none => simp [hm, ih, CDog.VerifyAll_microchip]
        | some c =>
          simp only [hm]
          split
          · simp [ih, CDog.VerifyAll_microchip]
          · simp [ih, CDog.VerifyAll_microchip]

def dLeg : CDog :=
  ⟨42, ("Fido").data, ("123 456 789").data, [], [], [], [], [], [], [], [], [], [],
   [], [], [], [], [], [], [], [], [], [], [], [], [], [], [], [], [], [], [], [],
   [], true⟩

/-- C10: building the Found.org update records never writes to the dogs
database's chip index or number index, and never changes any dog's
microchip field (VerifyAll rewrites other fields in place, but not the
chip); a legacy grouped chip is stripped of its separators only inside the
freshly built update record, whose embedded dog still carries the original
grouped string — so the snapshot's chip index continues to key each record
under the original string. -/
theorem C10_update_keeps_chip_index (Dogs : CDogs) :
    (BuildUpdates Dogs).1.mapChip = Dogs.mapChip ∧
    (BuildUpdates Dogs).1.mapNumber = Dogs.mapNumber ∧
    (BuildUpdates Dogs).1.arena.map (fun d => d.microchip)
      = Dogs.arena.map (fun d => d.microchip) ∧
    (∀ (s : Str) (i : Nat), assocFindStr Dogs.mapChip s = some i →
      assocFindStr ((BuildUpdates Dogs).1.mapChip) s = some i ∧
      ((BuildUpdates Dogs).1.arena[i]?).map (fun d => d.microchip)
        = (Dogs.arena[i]?).map (fun d => d.microchip)) ∧
    (∀ (d : CDog) (g1 s1 g2 s2 g3 : Str),
      CChip.ChipLegacyDecomp d.microchip g1 s1 g2 s2 g3 →
      CChip.FromDog d = some ⟨g1 ++ g2 ++ g3, d⟩) := by
  refine ⟨rfl, rfl, BuildUpdatesGo_microchips Dogs.arena [], ?_, ?_⟩
  · intro s i h
    refine ⟨h, ?_⟩
    have hcol := congrArg (fun l => l[i]?) (BuildUpdatesGo_microchips Dogs.arena [])
    simp only [List.getElem?_map] at hcol
    exact hcol
  · intro d g1 s1 g2 s2 g3 h
    have hne : d.microchip ≠ [] := by
      obtain ⟨hlen, e1, e2⟩ := CChip.ChipLegacyDecomp_length d.microchip g1 s1 g2 s2 g3 h
      intro he
      have h0 : d.microchip.length = 0 := by rw [he]; rfl
      omega
    have hiso := CChip.ChipLegacyDecomp_not_ISO d.microchip g1 s1 g2 s2 g3 h
    have hpk := CChip.ChipLegacyDecomp_not_Pumpkin d.microchip g1 s1 g2 s2 g3 h
    have hfd := CChip.ChipLegacyDecomp_not_FDXA d.microchip g1 s1 g2 s2 g3 h
    have hlm := CChip.legacyMatch_complete d.microchip g1 s1 g2 s2 g3 h
    have hv : CChip.VerifyMicrochip d.microchip false = (true, g1 ++ g2 ++ g3, []) := by
      rw [CChip.VerifyMicrochip.eq_def, if_neg hne, if_neg (by simp [hiso]),
          if_neg (by simp [hpk]), if_neg (by simp [hfd]), hlm]
    rw [CChip.FromDog.eq_def, hv]
    rfl

theorem C10_witness :
    (BuildUpdates (CDogs.buildSnapshot [dLeg])).1.mapChip
      = (CDogs.buildSnapshot [dLeg]).mapChip ∧
    assocFindStr ((BuildUpdates (CDogs.buildSnapshot [dLeg])).1.mapChip)
      (("123 456 789").data) = some 0 ∧
    (((BuildUpdates (CDogs.buildSnapshot [dLeg])).1.arena[0]?).map
      (fun d => d.microchip)) = some (("123 456 789").data) ∧
    CChip.FromDog dLeg = some ⟨("123456789").data, dLeg⟩ := by
  have h := C10_update_keeps_chip_index (CDogs.buildSnapshot [dLeg])
  refine ⟨h.1, ?_, ?_, ?_⟩
  · exact (h.2.2.2.1 (("123 456 789").data) 0 (by decide)).1
  · have h2 := (h.2.2.2.1 (("123 456 789").data) 0 (by decide)).2
    rw [h2]
    decide
  · exact h.2.2.2.2 dLeg (("123").data) [' '] (("456").data) [' '] (("789").data)
      ⟨by decide, by decide, by decide, by decide, by decide, by decide, by decide,
       by decide, by decide⟩
